import Mathlib

/-!
# Verification of the beam catalog normalization and reconciliation engine

This file gives a shallow embedding, in Lean 4, of the core of the `beam`
repository: the content hasher and upsert engine (`lib/upsertProduct.ts`,
shipped here as `src/unnamed/part_005`), the CSV row mapper and transform
executor (`lib/mapper.ts`, shipped as `src/unnamed/part_003`), the Shopify
catalog normalizer (`src/connectors/shopify.ts`), and the duplicate
reconciliation script (`src/scripts/debugGoose.ts`, middle section).

Modelling conventions:
* JavaScript runtime values flowing through the untyped parts of the code
  (`any`-typed attributes, product fields that the row mapper assigns
  dynamically) are modelled by the inductive `JsVal`.  JS numbers are
  modelled as rationals (the claims under study only involve values exactly
  representable there; `NaN` and `-0` do not arise in them).
* JS objects are modelled as insertion-ordered association lists
  (`AList`); `alSet` mirrors JS property assignment (an existing key keeps
  its position, a new key is appended), `alGet` mirrors property lookup.
* `createProductHash` in the source computes `sha1(dataString)`.  Equal
  data strings give equal digests, so the model lets the hash *be* the
  deterministic data string; every theorem below only ever concludes
  *equality* of hashes, which transports along any digest function.
* The Supabase record store is an external collaborator; it is modelled as
  a faithful CRUD store over a list of rows (insert appends, update patches
  a row in place keeping its position, delete removes by id).
-/

set_option linter.unusedVariables false
set_option linter.unreachableTactic false
set_option linter.unusedTactic false

namespace Beam

/-- A JavaScript runtime value, as stored in `attributes` maps and in the
dynamically-assigned fields of a normalized product.  `undef` is JS
`undefined` (distinct from `null`: `JSON.stringify` drops `undef`-valued
object fields but renders `undef` array elements as `null`). -/
inductive JsVal where
  | undef : JsVal
  | null : JsVal
  | bool (b : Bool) : JsVal
  | num (q : ℚ) : JsVal
  | str (s : String) : JsVal
  | arr (xs : List JsVal) : JsVal
  | obj (fields : List (String × JsVal)) : JsVal
deriving Inhabited

/-- An insertion-ordered association list: the model of a JS object. -/
abbrev AList (α : Type) := List (String × α)

/-- The model of a JS object holding attribute values. -/
abbrev Attrs := AList JsVal

/-- JS property lookup: the value at the first occurrence of the key. -/
def alGet {α : Type} : AList α → String → Option α
  | [], _ => none
  | (k', v) :: rest, k => if k' = k then some v else alGet rest k

/-- JS property assignment: replace the value at an existing key in place,
or append a fresh key at the end. -/
def alSet {α : Type} : AList α → String → α → AList α
  | [], k, v => [(k, v)]
  | (k', v') :: rest, k, v =>
      if k' = k then (k, v) :: rest else (k', v') :: alSet rest k v

/-- JS object spread `{...a, ...b}`: assign every field of `b` onto `a`. -/
def alSpread {α : Type} (a b : AList α) : AList α :=
  b.foldl (fun acc kv => alSet acc kv.1 kv.2) a

/-- The keys of an association list, in stored order. -/
def alKeys {α : Type} (a : AList α) : List String := a.map (·.1)

/-- Distinct keys: the well-formedness invariant of every genuine JS object. -/
def NodupKeys {α : Type} (a : AList α) : Prop := (alKeys a).Nodup

/-- JS truthiness of a value (`NaN` is not modelled; `-0` is the rational `0`). -/
def jsTruthy : JsVal → Bool
  | .undef => false
  | .null => false
  | .bool b => b
  | .num q => decide (q ≠ 0)
  | .str s => decide (s ≠ "")
  | .arr _ => true
  | .obj _ => true

mutual
/-- Structural equality of JS values.  It stands in for the `===` /
SameValueZero comparisons the code performs; those compare object values by
reference, but every comparison the code makes is on identifier values that
are strings (or numbers) in practice. -/
def jsEqb : JsVal → JsVal → Bool
  | .undef, .undef => true
  | .null, .null => true
  | .bool a, .bool b => a == b
  | .num a, .num b => a == b
  | .str a, .str b => a == b
  | .arr a, .arr b => jsEqbL a b
  | .obj a, .obj b => jsEqbF a b
  | _, _ => false

/-- Element-wise equality of JS arrays. -/
def jsEqbL : List JsVal → List JsVal → Bool
  | [], [] => true
  | x :: xs, y :: ys => jsEqb x y && jsEqbL xs ys
  | _, _ => false

/-- Field-wise equality of JS objects. -/
def jsEqbF : List (String × JsVal) → List (String × JsVal) → Bool
  | [], [] => true
  | (k, v) :: xs, (k', v') :: ys => k == k' && jsEqb v v' && jsEqbF xs ys
  | _, _ => false
end

/-- Lexicographic sort of a list of strings, the model of JS
`Array.prototype.sort()` on string arrays (default comparator). -/
def sortStrings (l : List String) : List String :=
  List.insertionSort (· ≤ ·) l

/-- Rendering of a JS number for serialization.  This stands in for the JS
number-to-string conversion; the development only ever compares
serializations for equality, never decodes them. -/
def ratStr (q : ℚ) : String :=
  if q.den = 1 then toString q.num else toString q.num ++ "/" ++ toString q.den

/-- A JSON string literal.  Escaping of special characters is not modelled;
no theorem below relies on injectivity of serialization. -/
def jstr (s : String) : String := "\"" ++ s ++ "\""

theorem alGet_sizeOf {v : JsVal} :
    ∀ {fs : Attrs} {k : String}, alGet fs k = some v → sizeOf v < sizeOf fs := by
  intro fs
  induction fs with
  | nil => intro k h; simp [alGet] at h
  | cons kv rest ih =>
    intro k h
    obtain ⟨k', v'⟩ := kv
    by_cases hk : k' = k
    · simp [alGet, hk] at h
      subst h
      simp
      omega
    · simp [alGet, hk] at h
      have := ih h
      simp
      omega

mutual
/-- `SerializeJSONProperty` of ECMAScript `JSON.stringify`, restricted to
`JsVal`.  `pl = some K` is an array replacer (property list): objects are
then serialized by iterating `K`, which both orders and filters their keys
at every nesting level.  `none` means no replacer: objects are serialized
in stored field order.  The result is `none` exactly when the value is
`undefined` (such object fields are dropped; array elements render as
`"null"`). -/
def serVal (pl : Option (List String)) : JsVal → Option String
  | .undef => none
  | .null => some "null"
  | .bool b => some (if b then "true" else "false")
  | .num q => some (ratStr q)
  | .str s => some (jstr s)
  | .arr xs => some ("[" ++ String.intercalate "," (serElems pl xs) ++ "]")
  | .obj fs =>
      match pl with
      | some ks => some ("\x7b" ++ String.intercalate "," (serFieldsK pl fs ks) ++ "\x7d")
      | none => some ("\x7b" ++ String.intercalate "," (serFieldsAll pl fs) ++ "\x7d")
termination_by v => (sizeOf v, 0)
decreasing_by
  all_goals simp_wf
  all_goals first
    | (apply Prod.Lex.left; first | omega | (simp; omega) | exact alGet_sizeOf h)
    | (apply Prod.Lex.right; first | omega | (simp; omega))

/-- Serialization of the elements of a JS array (`undefined` renders as `null`). -/
def serElems (pl : Option (List String)) : List JsVal → List String
  | [] => []
  | v :: vs => ((serVal pl v).getD "null") :: serElems pl vs
termination_by vs => (sizeOf vs, 0)
decreasing_by
  all_goals simp_wf
  all_goals first
    | (apply Prod.Lex.left; first | omega | (simp; omega) | exact alGet_sizeOf h)
    | (apply Prod.Lex.right; first | omega | (simp; omega))

/-- Serialization of an object's fields in stored order (no replacer). -/
def serFieldsAll (pl : Option (List String)) : List (String × JsVal) → List String
  | [] => []
  | (k, v) :: rest =>
      match serVal pl v with
      | some s => (jstr k ++ ":" ++ s) :: serFieldsAll pl rest
      | none => serFieldsAll pl rest
termination_by fs => (sizeOf fs, 0)
decreasing_by
  all_goals simp_wf
  all_goals first
    | (apply Prod.Lex.left; first | omega | (simp; omega) | exact alGet_sizeOf h)
    | (apply Prod.Lex.right; first | omega | (simp; omega))

/-- Serialization of an object's fields under an array replacer: iterate the
property list `ks`, emitting each key that is present on the object and
whose value serializes. -/
def serFieldsK (pl : Option (List String)) (fs : Attrs) : List String → List String
  | [] => []
  | k :: ks =>
      match h : alGet fs k with
      | some v =>
          match serVal pl v with
          | some s => (jstr k ++ ":" ++ s) :: serFieldsK pl fs ks
          | none => serFieldsK pl fs ks
      | none => serFieldsK pl fs ks
termination_by ks => (sizeOf fs, sizeOf ks)
decreasing_by
  all_goals simp_wf
  all_goals first
    | (apply Prod.Lex.left; first | omega | (simp; omega) | exact alGet_sizeOf h)
    | (apply Prod.Lex.right; first | omega | (simp; omega))
end

mutual
/-- JS `String(v)` conversion.  Arrays stringify as their elements joined
with `","` (with `null`/`undefined` elements rendering as empty), objects as
`"[object Object]"`.  Number rendering reuses `ratStr` (a stand-in for the
JS number-to-string conversion, see there). -/
def jsToString : JsVal → String
  | .undef => "undefined"
  | .null => "null"
  | .bool b => if b then "true" else "false"
  | .num q => ratStr q
  | .str s => s
  | .arr xs => String.intercalate "," (jsToStringElems xs)
  | .obj _ => "[object Object]"

/-- Elements of an array under JS string conversion. -/
def jsToStringElems : List JsVal → List String
  | [] => []
  | v :: vs =>
      (match v with
        | .null => ""
        | .undef => ""
        | v' => jsToString v') :: jsToStringElems vs
end

/-- JS `Array.prototype.sort()` with the default comparator: sort by the
string conversion of the elements (a stable sort, as mandated since
ES2019). -/
def sortJsArr (xs : List JsVal) : List JsVal :=
  List.insertionSort (fun a b => jsToString a ≤ jsToString b) xs

/-- The canonical product shape produced by the row mapper and the Shopify
normalizer (`NormalizedProduct` in `types/mapping.ts`).  All fields except
the organization scope are dynamically assigned at runtime, so they are
modelled as `JsVal` with JS `undefined` for "absent". -/
structure NormalizedProduct where
  org_slug : String
  title : JsVal := .undef
  description : JsVal := .undef
  brand : JsVal := .undef
  condition : JsVal := .undef
  category : JsVal := .undef
  price : JsVal := .undef
  currency : JsVal := .undef
  quantity : JsVal := .undef
  image_urls : JsVal := .undef
  sku : JsVal := .undef
  global_id_type : JsVal := .undef
  global_id_value : JsVal := .undef
  merchant_product_id : JsVal := .undef
  merchant_variant_id : JsVal := .undef
  attributes : Attrs := []
  source : JsVal := .undef
  source_updated_at : JsVal := (.undef)

/-- `product.field || null`: the falsy-to-null defaulting each scalar field
of the hash input goes through (`upsertProduct.ts` lines 31–37). -/
def orNull (v : JsVal) : JsVal := if jsTruthy v then v else .null

/-- One scalar slot of the hash input, serialized. -/
def hashField (v : JsVal) : String := (serVal none (orNull v)).getD "null"

/-- The `image_urls` slot of the hash input:
`product.image_urls ? [...product.image_urls].sort() : null`.  Spreading a
string yields its characters; spreading any other truthy non-array value
throws a `TypeError` in JS — that case is modelled as `"null"` and is
excluded by hypothesis (`ImgOk`) in every theorem that touches it. -/
def hashImagesStr (v : JsVal) : String :=
  if jsTruthy v then
    match v with
    | .arr xs => (serVal none (.arr (sortJsArr xs))).getD "null"
    | .str s =>
        (serVal none (.arr (sortJsArr (s.data.map fun c => .str (String.singleton c))))).getD "null"
    | _ => "null"
  else "null"

/-- `image_urls` values on which the hash computation does not throw. -/
def ImgOk (v : JsVal) : Prop :=
  jsTruthy v = true → (∃ xs, v = .arr xs) ∨ (∃ s, v = .str s)

/-- The `attributes` slot of the hash input:
`JSON.parse(JSON.stringify(attributes, Object.keys(attributes).sort()))`,
re-serialized by the outer `JSON.stringify`.  The sorted key array acts as
an array replacer, so keys are emitted in sorted order and nested objects
are filtered to those same keys.  (The JSON round trip would additionally
move integer-like keys first on re-serialization; that reordering is not
modelled and is exercised by no claim.) -/
def hashAttrsStr (a : Attrs) : String :=
  (serVal (some (sortStrings (alKeys a))) (.obj a)).getD "null"

/-- `createProductHash` (`upsertProduct.ts` lines 28–44): the stable,
deterministic data string over exactly
`title, brand, category, price, currency, quantity, sku, image_urls,
attributes`.  The source feeds this string to SHA-1; the model lets the
hash *be* the string (equal strings give equal digests, and no theorem
below concludes hash *inequality*). -/
def createProductHash (p : NormalizedProduct) : String :=
  "\x7b\"title\":" ++ hashField p.title ++
  ",\"brand\":" ++ hashField p.brand ++
  ",\"category\":" ++ hashField p.category ++
  ",\"price\":" ++ hashField p.price ++
  ",\"currency\":" ++ hashField p.currency ++
  ",\"quantity\":" ++ hashField p.quantity ++
  ",\"sku\":" ++ hashField p.sku ++
  ",\"image_urls\":" ++ hashImagesStr p.image_urls ++
  ",\"attributes\":" ++ hashAttrsStr p.attributes ++ "\x7d"

/-- The result classification of one upsert (`UpsertResult`). -/
inductive UpsertAction where
  | inserted
  | updated
  | unchanged
deriving DecidableEq, Repr

/-- `UpsertResult`: the per-product outcome of the upsert engine. -/
structure UpsertResult where
  action : UpsertAction
  productId : Nat
  matchedOn : Option String := none

/-- The identity key the engine looks an existing record up by
(`matchConditions` in `upsertProduct.ts` lines 63–107). -/
inductive MatchStrategy where
  | shopifyKey (org : String) (mpid : JsVal)
  | idPair (org : String) (mpid mvid : JsVal)
  | skuKey (org : String) (sku : JsVal)
  | noKey

/-- The identity resolver, extracted from `upsertProduct` lines 63–107:
Shopify products match on `(org_slug, merchant_product_id, source)`;
otherwise the ID pair when both ids are truthy, else the SKU when truthy,
else no lookup at all. -/
def matchStrategy (p : NormalizedProduct) : MatchStrategy :=
  if jsEqb p.source (.str "shopify") then
    .shopifyKey p.org_slug p.merchant_product_id
  else if jsTruthy p.merchant_product_id && jsTruthy p.merchant_variant_id then
    .idPair p.org_slug p.merchant_product_id p.merchant_variant_id
  else if jsTruthy p.sku then
    .skuKey p.org_slug p.sku
  else
    .noKey

/-- `conflictColumns.join('+')`, reported as `matchedOn`. -/
def matchedOnStr : MatchStrategy → Option String
  | .shopifyKey _ _ => some "org_slug+merchant_product_id"
  | .idPair _ _ _ => some "org_slug+merchant_product_id+merchant_variant_id"
  | .skuKey _ _ => some "org_slug+sku"
  | .noKey => none

/-- A row of the `products` table, mirroring the columns the engine reads
and writes.  `id` is the store-assigned primary key. -/
structure StoredProduct where
  id : Nat
  org_slug : String
  title : JsVal := .undef
  description : JsVal := .undef
  brand : JsVal := .undef
  condition : JsVal := .undef
  category : JsVal := .undef
  price : JsVal := .undef
  currency : JsVal := .undef
  quantity : JsVal := .undef
  image_urls : JsVal := .undef
  sku : JsVal := .undef
  global_id_type : JsVal := .undef
  global_id_value : JsVal := .undef
  merchant_product_id : JsVal := .undef
  merchant_variant_id : JsVal := .undef
  attributes : Attrs := []
  source : JsVal := .undef
  source_updated_at : JsVal := .undef
  updated_at : String := ""

/-- The record store (the external CRUD collaborator of §6 of the spec):
rows in insertion order plus the next fresh primary key. -/
structure Store where
  rows : List StoredProduct := []
  nextId : Nat := 0

/-- Does a stored row satisfy the engine's `matchConditions`?  (The store's
`.match` filter: conjunction of column equalities.) -/
def matchesRecord (m : MatchStrategy) (r : StoredProduct) : Bool :=
  match m with
  | .shopifyKey org mpid =>
      r.org_slug == org && jsEqb r.merchant_product_id mpid && jsEqb r.source (.str "shopify")
  | .idPair org mp mv =>
      r.org_slug == org && jsEqb r.merchant_product_id mp && jsEqb r.merchant_variant_id mv
  | .skuKey org sk => r.org_slug == org && jsEqb r.sku sk
  | .noKey => false

/-- The row an insert writes: the product's fields plus the hash-carrying
attributes and the `updated_at` stamp.  (In the real store an `undefined`
field is simply an absent column; the claims under study constrain the key
fields to strings, where the distinction is invisible.) -/
def mkInsertRow (id : Nat) (now : String) (p : NormalizedProduct) (title : JsVal)
    (attrs : Attrs) : StoredProduct :=
  { id := id, org_slug := p.org_slug, title := title, description := p.description,
    brand := p.brand, condition := p.condition, category := p.category, price := p.price,
    currency := p.currency, quantity := p.quantity, image_urls := p.image_urls,
    sku := p.sku, global_id_type := p.global_id_type, global_id_value := p.global_id_value,
    merchant_product_id := p.merchant_product_id,
    merchant_variant_id := p.merchant_variant_id, attributes := attrs,
    source := p.source, source_updated_at := p.source_updated_at, updated_at := now }

/-- One field of an update patch: the store drops `undefined` values from
the JSON payload, so such a field keeps its stored value. -/
def patchField (newV old : JsVal) : JsVal :=
  match newV with
  | .undef => old
  | v => v

/-- Applying the engine's `updateData` (`{...productWithHash, attributes:
mergedAttributes}`) to the matched row: every present field of the product
overwrites the stored column, `attributes` becomes the merged map, and
`updated_at` is restamped. -/
def applyUpdate (now : String) (p : NormalizedProduct) (merged : Attrs)
    (r : StoredProduct) : StoredProduct :=
  { r with
    org_slug := p.org_slug,
    title := patchField p.title r.title,
    description := patchField p.description r.description,
    brand := patchField p.brand r.brand,
    condition := patchField p.condition r.condition,
    category := patchField p.category r.category,
    price := patchField p.price r.price,
    currency := patchField p.currency r.currency,
    quantity := patchField p.quantity r.quantity,
    image_urls := patchField p.image_urls r.image_urls,
    sku := patchField p.sku r.sku,
    global_id_type := patchField p.global_id_type r.global_id_type,
    global_id_value := patchField p.global_id_value r.global_id_value,
    merchant_product_id := patchField p.merchant_product_id r.merchant_product_id,
    merchant_variant_id := patchField p.merchant_variant_id r.merchant_variant_id,
    attributes := merged,
    source := patchField p.source r.source,
    source_updated_at := patchField p.source_updated_at r.source_updated_at,
    updated_at := now }

/-- The stored `_sync_hash === currentHash` comparison (a strict equality
against a string, false for an absent or non-string stored value). -/
def hashMatches (attrs : Attrs) (currentHash : String) : Bool :=
  match alGet attrs "_sync_hash" with
  | some (.str s) => s == currentHash
  | _ => false

/-- The hash-carrying attributes `{...product.attributes, _sync_hash:
currentHash}` the engine writes. -/
def attrsWithHash (p : NormalizedProduct) : Attrs :=
  alSpread p.attributes [("_sync_hash", .str (createProductHash p))]

/-- The keyed path of `upsertProduct` (`upsertProduct.ts` lines 109–187),
for a product whose identity resolution produced a lookup key `strat`:
find the existing records, compare the stored `_sync_hash` of the first
match with the fresh hash, and update / insert / leave unchanged
accordingly.  On the no-match insert path, a falsy `title` is promoted
from the first attribute value when that value is a string. -/
def upsertKeyed (now : String) (p : NormalizedProduct) (st : Store)
    (strat : MatchStrategy) : UpsertResult × Store :=
  match (st.rows.filter fun r => matchesRecord strat r).head? with
  | some e =>
      if hashMatches e.attributes (createProductHash p) then
        ({ action := .unchanged, productId := e.id, matchedOn := matchedOnStr strat }, st)
      else
        ({ action := .updated, productId := e.id, matchedOn := matchedOnStr strat },
         { st with rows := st.rows.map fun r =>
             if r.id == e.id then
               applyUpdate now p (alSpread e.attributes (attrsWithHash p)) r
             else r })
  | none =>
      let title :=
        if jsTruthy p.title then p.title
        else match (attrsWithHash p).head? with
          | some (_, .str s) => JsVal.str s
          | _ => p.title
      ({ action := .inserted, productId := st.nextId },
       { rows := st.rows ++ [mkInsertRow st.nextId now p title (attrsWithHash p)],
         nextId := st.nextId + 1 })

/-- `upsertProduct` (`upsertProduct.ts` lines 49–187): classify one
canonical product against the store as inserted / updated / unchanged and
apply the corresponding write.  A product without any identity key is
unconditionally inserted (no lookup, no title promotion on that path);
otherwise the keyed path runs.  `now` is the `new Date().toISOString()`
stamp. -/
def upsertProduct (now : String) (p : NormalizedProduct) (st : Store) :
    UpsertResult × Store :=
  match matchStrategy p with
  | .noKey =>
      ({ action := .inserted, productId := st.nextId },
       { rows := st.rows ++ [mkInsertRow st.nextId now p p.title (attrsWithHash p)],
         nextId := st.nextId + 1 })
  | strat => upsertKeyed now p st strat


/-!
## Row mapper and transform executor (`lib/mapper.ts`, src/unnamed/part_003)
-/

/-- Worker for `collapseRuns`: `inRun` records whether the previous
character belonged to a run being collapsed. -/
def collapseRunsAux (p : Char → Bool) (repl : Char) : Bool → List Char → List Char
  | _, [] => []
  | inRun, c :: cs =>
      if p c then
        if inRun then collapseRunsAux p repl true cs
        else repl :: collapseRunsAux p repl true cs
      else c :: collapseRunsAux p repl false cs

/-- Replace every maximal run of characters satisfying `p` by the single
character `repl` (the model of `.replace(/X+/g, repl)` for a character
class `X`). -/
def collapseRuns (p : Char → Bool) (repl : Char) (cs : List Char) : List Char :=
  collapseRunsAux p repl false cs

/-- `normalizeHeader` (`mapper.ts` lines 14–20): strip a leading BOM, trim,
collapse internal whitespace runs to one space, lowercase.  (JS `\s`,
`trim()` and `toLowerCase()` reach beyond ASCII; the model uses Lean's
`Char.isWhitespace` / `Char.toLower`, which agree on the inputs of
interest.) -/
def normalizeHeader (header : String) : String :=
  let cs := header.data
  let cs := match cs with
    | '﻿' :: rest => rest
    | other => other
  let cs := (cs.dropWhile Char.isWhitespace).reverse.dropWhile Char.isWhitespace |>.reverse
  let cs := collapseRuns Char.isWhitespace ' ' cs
  String.mk (cs.map Char.toLower)

/-- `normalizeAttributeKey` (`mapper.ts` lines 25–34): trim, collapse
whitespace, lowercase, replace characters outside `[a-zA-Z0-9_\s]` by `_`,
replace whitespace runs by `_`, collapse `_` runs, strip edge `_`. -/
def normalizeAttributeKey (key : String) : String :=
  let cs := key.data
  let cs := (cs.dropWhile Char.isWhitespace).reverse.dropWhile Char.isWhitespace |>.reverse
  let cs := collapseRuns Char.isWhitespace ' ' cs
  let cs := cs.map Char.toLower
  let cs := cs.map fun c =>
    if c.isAlpha || c.isDigit || c = '_' || c.isWhitespace then c else '_'
  let cs := collapseRuns Char.isWhitespace '_' cs
  let cs := collapseRuns (· = '_') '_' cs
  let cs := (cs.dropWhile (· = '_')).reverse.dropWhile (· = '_') |>.reverse
  String.mk cs

/-- `autoSplitImageUrls` (`mapper.ts` lines 39–56): split on `|` when
present, else on `,` when present, else a singleton; pieces trimmed, empty
pieces dropped. -/
def autoSplitImageUrls (value : String) : List String :=
  if value = "" then []
  else if value.data.contains '|' then
    ((value.splitOn "|").map String.trim).filter (· ≠ "")
  else if value.data.contains ',' then
    ((value.splitOn ",").map String.trim).filter (· ≠ "")
  else
    [value.trim].filter (· ≠ "")

/-- `normalizeCondition` (`mapper.ts` lines 138–157). -/
def normalizeCondition (value : String) : String :=
  let normalized := value.toLower.trim
  if normalized = "new" || normalized = "brand new" then "new"
  else if normalized = "used" || normalized = "pre-owned" then "used"
  else if normalized = "refurbished" || normalized = "renewed" then "refurbished"
  else if normalized = "open box" || normalized = "open-box" || normalized = "openbox" then "open_box"
  else "other"

/-- The `[\d,]+(\.\d+)?$` tail of the `isNumericString` regex: one or
more digits/commas, then optionally a dot followed by one or more digits,
ending the string. -/
def numericCore (cs : List Char) : Bool :=
  !(cs.takeWhile fun c => c.isDigit || c = ',').isEmpty &&
    match cs.dropWhile fun c => c.isDigit || c = ',' with
    | [] => true
    | '.' :: frac => !frac.isEmpty && frac.all Char.isDigit
    | _ => false

/-- `isNumericString` (`mapper.ts` lines 162–166): the test
`/^-?[\d,]+(\.\d+)?$/`.  The character class cannot consume `.`, so the
regex is equivalent to this deterministic decomposition. -/
def isNumericString (s : String) : Bool :=
  match s.data with
  | '-' :: rest => numericCore rest
  | other => numericCore other

/-- The natural number denoted by a digit string, `foldl`-style. -/
def digitsToNat (ds : List Char) : ℕ :=
  ds.foldl (fun acc c => acc * 10 + (c.toNat - '0'.toNat)) 0

/-- Parse a leading decimal literal `sign? digits* ('.' digits*)?` from a
character list, requiring at least one digit; returns the value and the
unconsumed rest. -/
def parseDecimal (cs : List Char) : Option (ℚ × List Char) :=
  let (neg, cs) := match cs with
    | '-' :: rest => (true, rest)
    | '+' :: rest => (false, rest)
    | other => (false, other)
  let intPart := cs.takeWhile Char.isDigit
  let cs := cs.dropWhile Char.isDigit
  let (fracPart, cs) := match cs with
    | '.' :: rest => (rest.takeWhile Char.isDigit, rest.dropWhile Char.isDigit)
    | other => ([], other)
  if intPart = [] ∧ fracPart = [] then none
  else
    let mag : ℚ :=
      if fracPart = [] then (digitsToNat intPart : ℚ)
      else (digitsToNat intPart : ℚ) + (digitsToNat fracPart : ℚ) / ((10 : ℚ) ^ fracPart.length)
    some (if neg then -mag else mag, cs)

/-- JS `parseFloat`: skip leading whitespace, parse the longest valid
leading decimal, `NaN` (modelled as `none`) when no digit is found.
Exponents, `Infinity` and hex forms are not modelled: every call site in
the code first strips the input down to `[0-9.,$-]`. -/
def jsParseFloat (s : String) : Option ℚ :=
  (parseDecimal (s.data.dropWhile Char.isWhitespace)).map (·.1)

/-- JS `Number(string)`: like `parseFloat` but the whole (trimmed) string
must be consumed, and the empty string denotes `0`. -/
def jsNumber (s : String) : Option ℚ :=
  let cs := (s.data.dropWhile Char.isWhitespace).reverse.dropWhile Char.isWhitespace |>.reverse
  if cs = [] then some 0
  else match parseDecimal cs with
    | some (q, []) => some q
    | _ => none

/-- The operation-specific arguments of a transform (`TransformSpec.args`). -/
structure TransformArgs where
  pattern : Option String := none
  flags : Option String := none
  group : Option Nat := none
  delimiter : Option String := none

/-- `TransformSpec` from `types/mapping.ts`: a named operation plus
optional arguments.  Unknown `op` strings are legal and act as no-ops. -/
structure TransformSpec where
  op : String
  args : Option TransformArgs := none

/-- The ECMAScript `RegExp` builtin, an external platform collaborator:
`compile pattern flags` is `none` exactly when `new RegExp(pattern, flags)`
throws a `SyntaxError` (malformed pattern); otherwise it yields the
`String.prototype.match` behaviour of the compiled regex — `none` for no
match, or the match array (index 0 the full match, then the capture
groups, absent groups being `undefined`). -/
structure RegexEngine where
  compile : String → String → Option (String → Option (List (Option String)))

/-- The single-group slot `match[g]` of a match array, as a JS value. -/
def matchIndex (m : List (Option String)) (g : Nat) : JsVal :=
  match m.getD g none with
  | some s => .str s
  | none => (.undef)

/-- `applyTransform` (`mapper.ts` lines 83–133).  A thrown JS exception —
the only one possible being the `RegExp` constructor's `SyntaxError` on a
malformed pattern — surfaces as `Except.error` and propagates to the
caller, since the source has no `try`/`catch` around it. -/
def applyTransform (eng : RegexEngine) (value : JsVal) (t : TransformSpec) :
    Except String JsVal :=
  match value with
  | .null => .ok value
  | .undef => .ok value
  | _ =>
    if t.op = "trim" then .ok (.str (jsToString value).trim)
    else if t.op = "lower" then .ok (.str (jsToString value).toLower)
    else if t.op = "upper" then .ok (.str (jsToString value).toUpper)
    else if t.op = "regex" then
      match t.args with
      | some args =>
          match args.pattern with
          | some p =>
              if p ≠ "" then
                match eng.compile p (args.flags.getD "") with
                | none => .error "SyntaxError: invalid regular expression"
                | some run =>
                    match run (jsToString value) with
                    | some m =>
                        .ok (match args.group with
                          | some g => if g ≠ 0 then matchIndex m g else matchIndex m 0
                          | none => matchIndex m 0)
                    | none => .ok value
              else .ok value
          | none => .ok value
      | none => .ok value
    else if t.op = "split" then
      let d := match t.args with
        | some args => match args.delimiter with
            | some s => if s ≠ "" then s else ","
            | none => ","
        | none => ","
      .ok (.arr ((((jsToString value).splitOn d).map String.trim).filter (· ≠ "") |>.map .str))
    else if t.op = "join" then
      let d := match t.args with
        | some args => match args.delimiter with
            | some s => if s ≠ "" then s else ","
            | none => ","
        | none => ","
      match value with
      | .arr xs => .ok (.str (String.intercalate d (jsToStringElems xs)))
      | v => .ok (.str (jsToString v))
    else if t.op = "to_number" then
      let cleaned := String.mk ((jsToString value).data.filter fun c =>
        c.isDigit || c = '.' || c = '-')
      .ok (.num ((jsParseFloat cleaned).getD 0))
    else .ok value

/-- `MappingRule` from `types/mapping.ts`. -/
structure MappingRule where
  sourceField : String
  internalField : String
  transform : Option TransformSpec := none

/-- `CORE_FIELDS` (`mapper.ts` lines 5–9): the internal field names set
directly on the product object rather than into `attributes`. -/
def CORE_FIELDS : List String :=
  ["title", "brand", "category", "price", "currency", "quantity", "image_urls",
   "sku", "global_id_type", "global_id_value", "merchant_product_id",
   "merchant_variant_id", "condition", "description"]

/-- Dynamic assignment `(product as any)[field] = value` for a core field. -/
def setCoreField (p : NormalizedProduct) (f : String) (v : JsVal) : NormalizedProduct :=
  if f = "title" then { p with title := v }
  else if f = "brand" then { p with brand := v }
  else if f = "category" then { p with category := v }
  else if f = "price" then { p with price := v }
  else if f = "currency" then { p with currency := v }
  else if f = "quantity" then { p with quantity := v }
  else if f = "image_urls" then { p with image_urls := v }
  else if f = "sku" then { p with sku := v }
  else if f = "global_id_type" then { p with global_id_type := v }
  else if f = "global_id_value" then { p with global_id_value := v }
  else if f = "merchant_product_id" then { p with merchant_product_id := v }
  else if f = "merchant_variant_id" then { p with merchant_variant_id := v }
  else if f = "condition" then { p with condition := v }
  else if f = "description" then { p with description := v }
  else p

/-- The `sourceValue !== undefined && sourceValue !== null && sourceValue
!== ''` guard: only JS `undefined`, `null` and the empty string are
rejected (strict equality — the number `0` passes). -/
def presentValue : JsVal → Bool
  | .undef => false
  | .null => false
  | .str s => s ≠ ""
  | _ => true

/-- Applying one matched mapping rule to the product under construction
(`mapper.ts` lines 217–262): optional transform, the `image_urls` and
`condition` special cases, then routing onto a core field, an
`attributes.`-prefixed key, or a raw attribute key. -/
def applyRuleValue (eng : RegexEngine) (rule : MappingRule) (sourceValue : JsVal)
    (p : NormalizedProduct) : Except String NormalizedProduct := do
  let mut mappedValue := sourceValue
  match rule.transform with
  | some t => mappedValue ← applyTransform eng sourceValue t
  | none => pure ()
  if rule.internalField = "image_urls" then
    mappedValue := match mappedValue with
      | .arr xs => .arr (xs.filter jsTruthy)
      | v => .arr ((autoSplitImageUrls (jsToString v)).map .str)
  if rule.internalField = "condition" then
    mappedValue := .str (normalizeCondition (jsToString mappedValue))
  if CORE_FIELDS.contains rule.internalField then
    return setCoreField p rule.internalField mappedValue
  else if rule.internalField.startsWith "attributes." then
    let attrKey := rule.internalField.drop "attributes.".length
    return { p with attributes := alSet p.attributes attrKey mappedValue }
  else
    return { p with attributes := alSet p.attributes rule.internalField mappedValue }

/-- The `[,$]` strip applied before `parseFloat` in the unmapped-field
coercion (`mapper.ts` line 273). -/
def stripCommasDollars (s : String) : String :=
  String.mk (s.data.filter fun c => c ≠ ',' && c ≠ '$')

/-- The numeric coercion of one unmapped field value (`mapper.ts` lines
269–277): a string is coerced to a number exactly when it passes
`isNumericString` *as is* and then parses after stripping `,` and `$`;
any other value is kept unchanged. -/
def coerceUnmappedValue (v : JsVal) : JsVal :=
  match v with
  | .str s =>
      if isNumericString s then
        match jsParseFloat (stripCommasDollars s) with
        | some q => .num q
        | none => .str s
      else .str s
  | v => v

/-- The unmapped-field loop of `mapCsvRowToProduct` (`mapper.ts` lines
267–287): every raw header not consumed by a rule, with a present value,
lands in `attributes` under its normalized key, numeric strings coerced. -/
def addUnmappedFields (rawRow : AList JsVal) (mappedHeaders : List String)
    (product : NormalizedProduct) : NormalizedProduct :=
  rawRow.foldl
    (fun prod kv =>
      if !mappedHeaders.contains kv.1 && presentValue kv.2 then
        let newAttrs := alSet prod.attributes (normalizeAttributeKey kv.1) (coerceUnmappedValue kv.2)
        { prod with attributes := newAttrs }
      else prod)
    product

/-- `mapCsvRowToProduct` (`mapper.ts` lines 171–290): build the normalized
header index, apply each mapping rule in order, then place every unmapped
non-empty field into `attributes` under its normalized key, coercing pure
numeric strings to numbers.  `now` models `new Date().toISOString()`.  The
mapping rules are taken as an argument (the caller loads them or passes
the defaults); a transform error (malformed regex) aborts the row. -/
def mapCsvRowToProduct (eng : RegexEngine) (rawRow : AList JsVal) (orgSlug : String)
    (now : String) (rules : List MappingRule) : Except String NormalizedProduct := do
  let normalizedHeaders : AList String :=
    rawRow.foldl (fun m kv => alSet m (normalizeHeader kv.1) kv.1) []
  let mut product : NormalizedProduct :=
    { org_slug := orgSlug, attributes := [], source := .str "csv",
      source_updated_at := .str now }
  let mut mappedHeaders : List String := []
  for rule in rules do
    match alGet normalizedHeaders (normalizeHeader rule.sourceField) with
    | none => pure ()
    | some originalHeader =>
        let sourceValue := (alGet rawRow originalHeader).getD .undef
        mappedHeaders := mappedHeaders ++ [originalHeader]
        if presentValue sourceValue then
          product ← applyRuleValue eng rule sourceValue product
  return addUnmappedFields rawRow mappedHeaders product

/-- `getDefaultMappingRules` (`mapper.ts` lines 295–314). -/
def getDefaultMappingRules : List MappingRule :=
  [ { sourceField := "Product Name", internalField := "title" },
    { sourceField := "Title", internalField := "title" },
    { sourceField := "Name", internalField := "title" },
    { sourceField := "MSRP", internalField := "price", transform := some { op := "to_number" } },
    { sourceField := "Price", internalField := "price", transform := some { op := "to_number" } },
    { sourceField := "Cost", internalField := "price", transform := some { op := "to_number" } },
    { sourceField := "Images", internalField := "image_urls",
      transform := some { op := "split", args := some { delimiter := some "|" } } },
    { sourceField := "Image URLs", internalField := "image_urls",
      transform := some { op := "split", args := some { delimiter := some "|" } } },
    { sourceField := "SKU", internalField := "sku" },
    { sourceField := "Brand", internalField := "brand" },
    { sourceField := "Category", internalField := "category" },
    { sourceField := "Description", internalField := "description" },
    { sourceField := "Quantity", internalField := "quantity", transform := some { op := "to_number" } },
    { sourceField := "Stock", internalField := "quantity", transform := some { op := "to_number" } },
    { sourceField := "Currency", internalField := "currency" },
    { sourceField := "Condition", internalField := "condition" } ]

/-!
## Shopify catalog normalizer (`src/connectors/shopify.ts`)
-/

/-- One node of `variants.nodes` as fetched from the Shopify Admin API. -/
structure ShopifyVariant where
  id : String
  title : String
  sku : String
  price : String
  availableForSale : Bool
  inventoryQuantity : Option Int
  selectedOptions : List (String × String)

/-- One fetched Shopify product (`ShopifyProduct` in `shopify.ts`), with
the image collection flattened to its URL list. -/
structure ShopifyProduct where
  id : String
  title : String
  vendor : String
  productType : String
  handle : String
  tags : List String
  status : String
  bodyHtml : String
  images : List String
  variants : List ShopifyVariant

/-- The per-variant normalization inside `normalizeShopifyProduct`
(`shopify.ts` lines 235–248). -/
def normalizeVariant (v : ShopifyVariant) : JsVal :=
  .obj
    [ ("id", .str v.id),
      ("sku", .str v.sku),
      ("title", .str v.title),
      ("price", .num ((jsNumber v.price).getD 0)),
      ("available", .bool v.availableForSale),
      ("quantity", match v.inventoryQuantity with
        | some n => .num n
        | none => .null),
      ("options", .obj (v.selectedOptions.foldl
        (fun m o => alSet m o.1.toLower (.str o.2)) [])) ]

/-- `normalizeShopifyProduct` (`shopify.ts` lines 214–277): fold a fetched
Shopify product (with all its variants) into one canonical product. -/
def normalizeShopifyProduct (product : ShopifyProduct) (orgSlug shopDomain
    shopCurrency : String) (now : String) : NormalizedProduct :=
  let totalQuantity : Int :=
    product.variants.foldl (fun sum v => sum + v.inventoryQuantity.getD 0) 0
  let imageUrls := product.images
  let firstVariant := product.variants.head?
  let isSingleVariant := product.variants.length = 1
  let variants := product.variants.map normalizeVariant
  { org_slug := orgSlug,
    title := .str product.title,
    brand := if product.vendor ≠ "" then .str product.vendor else .undef,
    category := if product.productType ≠ "" then .str product.productType else .undef,
    price := match firstVariant with
      | some v => match jsNumber v.price with
          | some q => if q ≠ 0 then .num q else .undef
          | none => .undef
      | none => .undef,
    currency := .str shopCurrency,
    quantity := if totalQuantity > 0 then .num totalQuantity else .undef,
    image_urls := if imageUrls.length > 0 then .arr (imageUrls.map .str) else .undef,
    sku := if isSingleVariant then
        match firstVariant with
        | some v => if v.sku ≠ "" then .str v.sku else .undef
        | none => .undef
      else .undef,
    merchant_product_id := .str product.id,
    merchant_variant_id := if isSingleVariant then
        match firstVariant with
        | some v => .str v.id
        | none => .undef
      else .undef,
    attributes :=
      [ ("description_html", .str product.bodyHtml),
        ("handle", .str product.handle),
        ("shop_domain", .str shopDomain),
        ("variants", .arr variants),
        ("pdp_url", .str ("https://" ++ shopDomain ++ "/products/" ++ product.handle)),
        ("tags", .arr (product.tags.map .str)),
        ("status", .str product.status),
        ("vendor", .str product.vendor) ],
    source := .str "shopify",
    source_updated_at := .str now }

/-!
## Duplicate reconciler (`src/scripts/debugGoose.ts`, dedupe section)
-/

/-- JS `split(':')` on a character list (split at every colon; an empty
input yields one empty piece, a trailing colon yields a trailing empty
piece). -/
def splitColon : List Char → List (List Char)
  | [] => [[]]
  | c :: cs =>
      if c = ':' then [] :: splitColon cs
      else match splitColon cs with
        | r :: rs => (c :: r) :: rs
        | [] => [[c]]

/-- `key.split(':')` as used by `findDuplicateGroups`. -/
def splitOnColon (s : String) : List String :=
  (splitColon s.data).map String.mk

/-- The group key `` `${row.org_slug}:${row.merchant_product_id}` ``
(`debugGoose.ts` line 140); the template literal applies the JS string
conversion to the id. -/
def buildGroupKey (org : String) (mpid : JsVal) : String :=
  org ++ ":" ++ jsToString mpid

/-- The destructuring `const [org_slug, merchant_product_id] =
key.split(':')` (`debugGoose.ts` line 148): only the first two pieces are
kept.  (A key always contains at least one colon, so the one-piece fallback
is unreachable; it is rendered as the empty string, JS would give
`undefined`.) -/
def recoverGroupPair (key : String) : String × String :=
  match splitOnColon key with
  | a :: b :: _ => (a, b)
  | [a] => (a, "")
  | [] => ("", "")

/-- A reported duplicate group (`DuplicateGroup` in `debugGoose.ts`). -/
structure DuplicateGroup where
  org_slug : String
  merchant_product_id : String
  duplicate_count : Nat

/-- The per-key occurrence counting of `findDuplicateGroups`
(`groups.set(key, (groups.get(key) || 0) + 1)`). -/
def countGroups (rows : List StoredProduct) : AList Nat :=
  rows.foldl
    (fun m r =>
      let k := buildGroupKey r.org_slug r.merchant_product_id
      alSet m k ((alGet m k).getD 0 + 1))
    []

/-- `findDuplicateGroups` (`debugGoose.ts` lines 127–154): count all
Shopify-sourced rows by the string key `org:merchant_product_id`, keep the
keys with count `> 1`, recover the pair by splitting the key on `:`, and
sort by descending count. -/
def findDuplicateGroups (st : Store) : List DuplicateGroup :=
  let shopifyRows := st.rows.filter fun r => jsEqb r.source (.str "shopify")
  let groups := countGroups shopifyRows
  let dups := groups.foldl
    (fun acc kc =>
      if kc.2 > 1 then
        let p := recoverGroupPair kc.1
        acc ++ [⟨p.1, p.2, kc.2⟩]
      else acc)
    []
  List.insertionSort (fun a b => b.duplicate_count ≤ a.duplicate_count) dups

/-- The store filter of `getProductsInGroup`: `org_slug`,
`merchant_product_id` and `source = 'shopify'` equalities. -/
def groupFilter (org mpid : String) (r : StoredProduct) : Bool :=
  r.org_slug == org && jsEqb r.merchant_product_id (.str mpid) &&
    jsEqb r.source (.str "shopify")

/-- `getProductsInGroup` (`debugGoose.ts` lines 156–170): the group's rows
ordered by `updated_at` descending (newest first; the model's stable sort
fixes the tie order the store leaves unspecified). -/
def getProductsInGroup (st : Store) (org mpid : String) : List StoredProduct :=
  List.insertionSort (fun a b => b.updated_at ≤ a.updated_at)
    (st.rows.filter (groupFilter org mpid))

/-- The image-URL union of `mergeProducts`: a JS `Set` filled in iteration
order with every truthy string element of every member's `image_urls`. -/
def collectImages (products : List StoredProduct) : List String :=
  products.foldl
    (fun acc p =>
      match p.image_urls with
      | .arr xs =>
          xs.foldl
            (fun acc v =>
              match v with
              | .str s => if s ≠ "" && !acc.contains s then acc ++ [s] else acc
              | _ => acc)
            acc
      | _ => acc)
    []

/-- A JS `Map` keyed by arbitrary JS values: `set` replaces in place or
appends.  (JS compares object keys by reference; `jsEqb` stands in, exact
on the string ids used in practice.) -/
def vmapSet (m : List (JsVal × JsVal)) (k v : JsVal) : List (JsVal × JsVal) :=
  match m with
  | [] => [(k, v)]
  | (k', v') :: rest =>
      if jsEqb k' k then (k, v) :: rest else (k', v') :: vmapSet rest k v

/-- The variant union of `mergeProducts`: iterate the members in fetched
order (newest first) and `Map.set` every variant that has a truthy `id` —
so for an id occurring in several members, the *last* member in iteration
order (the oldest) wins. -/
def collectVariants (products : List StoredProduct) : List (JsVal × JsVal) :=
  products.foldl
    (fun m p =>
      match alGet p.attributes "variants" with
      | some (JsVal.arr vs) =>
          vs.foldl
            (fun m v =>
              let idv := match v with
                | .obj fs => (alGet fs "id").getD .undef
                | _ => .undef
              if jsTruthy idv then vmapSet m idv v else m)
            m
      | _ => m)
    []

/-- The attribute accumulation of `mergeProducts`: for each member,
`survivor.attributes = {...member.attributes, ...survivor.attributes}` —
the accumulated (survivor-first) attributes override. -/
def mergeAttrsFold (products : List StoredProduct) (init : Attrs) : Attrs :=
  products.foldl (fun acc p => alSpread p.attributes acc) init

/-- `mergeProducts` (`debugGoose.ts` lines 172–219): the survivor is the
first (newest) member; images are the deduplicated, sorted union; the
attributes accumulate with survivor precedence; the `variants` attribute is
finally overwritten with the id-keyed union.  The source throws on an
empty list (`none` here). -/
def mergeProducts (products : List StoredProduct) : Option StoredProduct :=
  match products with
  | [] => none
  | p0 :: _ =>
      let survivorAttrs := mergeAttrsFold products p0.attributes
      let allImages := collectImages products
      let allVariants := collectVariants products
      let finalAttrs := alSet survivorAttrs "variants" (.arr (allVariants.map (·.2)))
      some { p0 with
        image_urls := .arr ((sortStrings allImages).map .str),
        attributes := finalAttrs }

/-- The survivor update of `dedupeGroup` (`updateData`, `debugGoose.ts`
lines 241–252): only the listed columns are patched (an `undefined` merged
value is dropped from the JSON payload and leaves the column unchanged),
and `updated_at` is restamped. -/
def applyMergeUpdate (now : String) (merged : StoredProduct) (r : StoredProduct) :
    StoredProduct :=
  { r with
    title := patchField merged.title r.title,
    brand := patchField merged.brand r.brand,
    category := patchField merged.category r.category,
    price := patchField merged.price r.price,
    currency := patchField merged.currency r.currency,
    quantity := patchField merged.quantity r.quantity,
    sku := patchField merged.sku r.sku,
    image_urls := patchField merged.image_urls r.image_urls,
    attributes := merged.attributes,
    updated_at := now }

/-- `dedupeGroup` (`debugGoose.ts` lines 221–274): fetch the group newest
first, merge everything into the newest member, write the merged columns
back onto it, then delete every other member. -/
def dedupeGroup (now : String) (st : Store) (org mpid : String) : Store :=
  let products := getProductsInGroup st org mpid
  if products.length ≤ 1 then st
  else
    match mergeProducts products with
    | none => st
    | some merged =>
        let survivorId := merged.id
        let loserIds := (products.drop 1).map (·.id)
        let rows₁ := st.rows.map fun r =>
          if r.id == survivorId then applyMergeUpdate now merged r else r
        let rows₂ := rows₁.filter fun r => !loserIds.contains r.id
        { st with rows := rows₂ }

/-!
## Association-list and sorting lemmas
-/

theorem alGet_alSet_self {α : Type} (a : AList α) (k : String) (v : α) :
    alGet (alSet a k v) k = some v := by
  induction a with
  | nil => simp [alSet, alGet]
  | cons kv rest ih =>
    obtain ⟨k', v'⟩ := kv
    by_cases h : k' = k
    · simp [alSet, alGet, h]
    · simp [alSet, alGet, h, ih]

theorem alGet_alSet_ne {α : Type} (a : AList α) {k' k : String} (hne : k' ≠ k) (v : α) :
    alGet (alSet a k' v) k = alGet a k := by
  induction a with
  | nil => simp [alSet, alGet, hne]
  | cons kv rest ih =>
    obtain ⟨k₀, v₀⟩ := kv
    by_cases h : k₀ = k'
    · subst h
      simp [alSet, alGet, hne]
    · by_cases h2 : k₀ = k <;> simp [alSet, alGet, h, h2, ih, Ne.symm hne]

theorem alKeys_alSet {α : Type} (a : AList α) (k : String) (v : α) :
    alKeys (alSet a k v) = if k ∈ alKeys a then alKeys a else alKeys a ++ [k] := by
  induction a with
  | nil => simp [alSet, alKeys]
  | cons kv rest ih =>
    obtain ⟨k₀, v₀⟩ := kv
    by_cases h : k₀ = k
    · subst h
      simp [alSet, alKeys]
    · have hne : ¬k = k₀ := fun hk => h hk.symm
      simp only [alSet, if_neg h, alKeys, List.map_cons]
      simp only [alKeys] at ih
      rw [ih]
      by_cases hm : k ∈ rest.map Prod.fst <;> simp [hm, hne]

theorem NodupKeys.alSet {α : Type} {a : AList α} (h : NodupKeys a) (k : String) (v : α) :
    NodupKeys (alSet a k v) := by
  unfold NodupKeys at *
  rw [alKeys_alSet]
  by_cases hm : k ∈ alKeys a
  · simpa [hm] using h
  · simp only [hm, if_false]
    exact List.Nodup.append h (List.nodup_singleton k) (by simpa using hm)

theorem alGet_eq_none_of_not_mem {α : Type} {a : AList α} {k : String}
    (h : k ∉ alKeys a) : alGet a k = none := by
  induction a with
  | nil => simp [alGet]
  | cons kv rest ih =>
    obtain ⟨k₀, v₀⟩ := kv
    simp only [alKeys, List.map_cons, List.mem_cons, not_or] at h
    have : k₀ ≠ k := fun hk => h.1 hk.symm
    simp [alGet, this]
    exact ih (by simpa [alKeys] using h.2)

theorem mem_alKeys_of_alGet {α : Type} {a : AList α} {k : String} {v : α}
    (h : alGet a k = some v) : k ∈ alKeys a := by
  by_contra hm
  rw [alGet_eq_none_of_not_mem hm] at h
  cases h

theorem alGet_alSpread {α : Type} (a : AList α) {b : AList α} (hb : NodupKeys b)
    (k : String) : alGet (alSpread a b) k = (alGet b k).or (alGet a k) := by
  induction b generalizing a with
  | nil => simp [alSpread, alGet]
  | cons kv rest ih =>
    obtain ⟨k₀, v₀⟩ := kv
    have hstep : alSpread a ((k₀, v₀) :: rest) = alSpread (alSet a k₀ v₀) rest := rfl
    have hnd : NodupKeys rest := by
      unfold NodupKeys alKeys at hb ⊢
      simpa using hb.of_cons
    have hnm : k₀ ∉ alKeys rest := by
      unfold NodupKeys alKeys at hb
      simp only [List.map_cons, List.nodup_cons] at hb
      exact hb.1
    rw [hstep, ih _ hnd]
    by_cases h : k = k₀
    · subst h
      rw [alGet_eq_none_of_not_mem hnm]
      simp [alGet, alGet_alSet_self]
    · have : k₀ ≠ k := fun hk => h hk.symm
      simp [alGet, this, alGet_alSet_ne a this]

theorem alGet_attrsWithHash_sync (p : NormalizedProduct) :
    alGet (attrsWithHash p) "_sync_hash" = some (.str (createProductHash p)) := by
  unfold attrsWithHash alSpread
  simpa using alGet_alSet_self p.attributes "_sync_hash" (.str (createProductHash p))

theorem attrsWithHash_nodup {p : NormalizedProduct} (h : NodupKeys p.attributes) :
    NodupKeys (attrsWithHash p) := by
  unfold attrsWithHash alSpread
  simpa using h.alSet "_sync_hash" (.str (createProductHash p))

theorem alGet_attrsWithHash_ne (p : NormalizedProduct) {k : String}
    (hk : k ≠ "_sync_hash") : alGet (attrsWithHash p) k = alGet p.attributes k := by
  unfold attrsWithHash alSpread
  simpa using alGet_alSet_ne p.attributes (fun h => hk h.symm) (.str (createProductHash p))

theorem sortStrings_perm {l₁ l₂ : List String} (h : l₁.Perm l₂) :
    sortStrings l₁ = sortStrings l₂ :=
  List.eq_of_perm_of_sorted
    (((List.perm_insertionSort _ l₁).trans h).trans (List.perm_insertionSort _ l₂).symm)
    (List.sorted_insertionSort _ l₁) (List.sorted_insertionSort _ l₂)

theorem orderedInsert_map_str (a : String) (l : List String) :
    List.orderedInsert (fun x y => jsToString x ≤ jsToString y) (.str a) (l.map JsVal.str)
      = (List.orderedInsert (· ≤ ·) a l).map JsVal.str := by
  induction l with
  | nil => rfl
  | cons b t ih =>
    simp only [List.map_cons, List.orderedInsert, jsToString]
    by_cases h : a ≤ b
    · rw [if_pos h, if_pos h, List.map_cons, List.map_cons]
    · rw [if_neg h, if_neg h, List.map_cons, ih]

theorem sortJsArr_map_str (l : List String) :
    sortJsArr (l.map JsVal.str) = (sortStrings l).map JsVal.str := by
  induction l with
  | nil => rfl
  | cons a t ih =>
    simp only [sortJsArr, sortStrings, List.map_cons, List.insertionSort] at *
    rw [ih, orderedInsert_map_str]

theorem jsEqb_str_iff {v : JsVal} {t : String} :
    jsEqb v (.str t) = true ↔ v = .str t := by
  cases v <;> simp [jsEqb]

theorem jsEqb_str_str (a b : String) : jsEqb (.str a) (.str b) = (a == b) := rfl

/-!
## C2 — identity-key precedence
-/

/-- **C2.** Identity-key precedence of the Upsert Engine: a Shopify-sourced
product is looked up by `(org_slug, merchant_product_id, source)`;
otherwise, when both `merchant_product_id` and `merchant_variant_id` are
present (JS-truthy), the key is the ID pair and `sku` is never consulted
(replacing `sku` by anything leaves the key unchanged); otherwise a present
`sku` gives the `(org_slug, sku)` key; otherwise no lookup is performed and
the product is unconditionally inserted as new. -/
theorem identity_key_precedence (p : NormalizedProduct) :
    (jsEqb p.source (.str "shopify") = true →
      matchStrategy p = .shopifyKey p.org_slug p.merchant_product_id)
  ∧ (jsEqb p.source (.str "shopify") = false →
      jsTruthy p.merchant_product_id = true →
      jsTruthy p.merchant_variant_id = true →
      matchStrategy p = .idPair p.org_slug p.merchant_product_id p.merchant_variant_id
        ∧ ∀ sk : JsVal, matchStrategy { p with sku := sk } = matchStrategy p)
  ∧ (jsEqb p.source (.str "shopify") = false →
      (jsTruthy p.merchant_product_id && jsTruthy p.merchant_variant_id) = false →
      jsTruthy p.sku = true →
      matchStrategy p = .skuKey p.org_slug p.sku)
  ∧ (jsEqb p.source (.str "shopify") = false →
      (jsTruthy p.merchant_product_id && jsTruthy p.merchant_variant_id) = false →
      jsTruthy p.sku = false →
      matchStrategy p = .noKey
        ∧ ∀ (now : String) (st : Store),
            (upsertProduct now p st).1.action = .inserted) := by
  refine ⟨?_, ?_, ?_, ?_⟩
  · intro h1
    simp [matchStrategy, h1]
  · intro h1 h2 h3
    constructor
    · simp [matchStrategy, h1, h2, h3]
    · intro sk
      simp [matchStrategy, h1, h2, h3]
  · intro h1 h2 h3
    simp [matchStrategy, h1, h2, h3]
  · intro h1 h2 h3
    have hkey : matchStrategy p = .noKey := by simp [matchStrategy, h1, h2, h3]
    refine ⟨hkey, fun now st => ?_⟩
    simp [upsertProduct, hkey]

/-- A Shopify-sourced product for the precedence witness. -/
def pShopW : NormalizedProduct :=
  { org_slug := "acme", source := .str "shopify", merchant_product_id := .str "gid1" }

/-- A CSV product carrying both merchant ids *and* a SKU. -/
def pPairW : NormalizedProduct :=
  { org_slug := "acme", source := .str "csv", merchant_product_id := .str "M1",
    merchant_variant_id := .str "V1", sku := .str "SKU9" }

/-- A CSV product carrying only a SKU. -/
def pSkuW : NormalizedProduct :=
  { org_slug := "acme", source := .str "csv", sku := .str "SKU9" }

/-- A CSV product with no identity fields at all. -/
def pNoneW : NormalizedProduct := { org_slug := "acme", source := .str "csv" }

/-- Witness for C2 at concrete products of all four precedence classes. -/
theorem identity_key_precedence_witness :
    matchStrategy pShopW = .shopifyKey "acme" (.str "gid1")
  ∧ matchStrategy pPairW = .idPair "acme" (.str "M1") (.str "V1")
  ∧ matchStrategy { pPairW with sku := .str "OTHER" } = matchStrategy pPairW
  ∧ matchStrategy pSkuW = .skuKey "acme" (.str "SKU9")
  ∧ matchStrategy pNoneW = .noKey
  ∧ (upsertProduct "t0" pNoneW { rows := [], nextId := 0 }).1.action = .inserted :=
  ⟨(identity_key_precedence pShopW).1 rfl,
   ((identity_key_precedence pPairW).2.1 rfl rfl rfl).1,
   ((identity_key_precedence pPairW).2.1 rfl rfl rfl).2 (.str "OTHER"),
   (identity_key_precedence pSkuW).2.2.1 rfl rfl rfl,
   ((identity_key_precedence pNoneW).2.2.2 rfl rfl rfl).1,
   ((identity_key_precedence pNoneW).2.2.2 rfl rfl rfl).2 "t0" _⟩

/-!
## C5 — hash-input defaulting
-/

/-- A product whose price is the *present* value `0`. -/
def priceZeroProduct : NormalizedProduct :=
  { org_slug := "acme", title := .str "Widget", price := .num 0, source := .str "csv" }

/-- The otherwise-identical product whose price is absent. -/
def priceAbsentProduct : NormalizedProduct :=
  { org_slug := "acme", title := .str "Widget", source := .str "csv" }

/-- **C5 counterexample.** The claim asserts that a present price `0`
hashes as the value `0` and so differs from the price-absent product; in
the code `product.price || null` sends every *falsy* price — including the
present number `0` — to `null`, so the two hash inputs coincide exactly. -/
theorem hash_defaulting_counterexample :
    createProductHash priceZeroProduct = createProductHash priceAbsentProduct := by
  simp [createProductHash, priceZeroProduct, priceAbsentProduct, hashField, orNull, jsTruthy]

/-- **C5 (amended).** The hash input is built from exactly
`title, brand, category, price, currency, quantity, sku, image_urls,
attributes`: every other product field (and the organization scope) can be
replaced arbitrarily without changing the hash; and each listed scalar
field is replaced by `null` exactly when it is *falsy* (absent, `null`,
`0`, the empty string, `false`) — not merely when absent — so in
particular a present price or quantity `0` hashes identically to the
absent field. -/
theorem hash_input_defaulting (p : NormalizedProduct) :
    (∀ (o : String) (d c g₁ g₂ mp mv s su : JsVal),
      createProductHash
          { p with org_slug := o, description := d, condition := c, global_id_type := g₁, global_id_value := g₂, merchant_product_id := mp, merchant_variant_id := mv, source := s, source_updated_at := su }
        = createProductHash p)
  ∧ (∀ v : JsVal, jsTruthy v = false →
      (createProductHash { p with title := v } = createProductHash { p with title := .null })
      ∧ (createProductHash { p with brand := v } = createProductHash { p with brand := .null })
      ∧ (createProductHash { p with category := v } = createProductHash { p with category := .null })
      ∧ (createProductHash { p with price := v } = createProductHash { p with price := .null })
      ∧ (createProductHash { p with currency := v } = createProductHash { p with currency := .null })
      ∧ (createProductHash { p with quantity := v } = createProductHash { p with quantity := .null })
      ∧ (createProductHash { p with sku := v } = createProductHash { p with sku := .null })
      ∧ (createProductHash { p with image_urls := v }
          = createProductHash { p with image_urls := .null })) := by
  constructor
  · intro o d c g₁ g₂ mp mv s su
    simp [createProductHash]
  · intro v hv
    refine ⟨?_, ?_, ?_, ?_, ?_, ?_, ?_, ?_⟩ <;>
      simp [createProductHash, hashField, hashImagesStr, orNull, hv]

/-- Witness for C5 at the concrete price-`0` product. -/
theorem hash_input_defaulting_witness :
    createProductHash { priceZeroProduct with price := .num 0 }
      = createProductHash { priceZeroProduct with price := .null } :=
  ((hash_input_defaulting priceZeroProduct).2 (.num 0) rfl).2.2.2.1

/-!
## C8 — Shopify quantity derivation
-/

/-- A Shopify variant whose inventory quantity is the present value `0`. -/
def zeroQtyVariant : ShopifyVariant :=
  { id := "gid://shopify/ProductVariant/1", title := "Default", sku := "SKU-1",
    price := "10", availableForSale := true, inventoryQuantity := some 0,
    selectedOptions := [] }

/-- A fetched Shopify product all of whose variant quantities are `0`. -/
def zeroQtyProduct : ShopifyProduct :=
  { id := "gid://shopify/Product/1", title := "Zero Stock", vendor := "Vend",
    productType := "Toys", handle := "zero-stock", tags := [], status := "ACTIVE",
    bodyHtml := "", images := [], variants := [zeroQtyVariant] }

/-- **C8 counterexample.** The claim asserts that a product all of whose
variant quantities are `0` has canonical quantity `0`; the normalizer
computes `quantity: totalQuantity > 0 ? totalQuantity : undefined`, so the
canonical quantity is *absent*, not the number `0`. -/
theorem shopify_quantity_counterexample :
    (normalizeShopifyProduct zeroQtyProduct "acme" "acme.myshopify.com" "USD" "t0").quantity
      = .undef
  ∧ JsVal.undef ≠ .num 0 :=
  ⟨rfl, by simp⟩

/-- **C8 (amended).** The normalizer sums all variant quantities with a
missing variant quantity treated as `0`; the canonical quantity is that sum
when the sum is positive, and is *absent* (`undefined`) otherwise — in
particular when every variant quantity is `0` or missing. -/
theorem variants_foldl_sum (l : List ShopifyVariant) (init : Int) :
    l.foldl (fun sum v => sum + v.inventoryQuantity.getD 0) init
      = init + (l.map fun v => v.inventoryQuantity.getD 0).sum := by
  induction l generalizing init with
  | nil => simp
  | cons a t ih =>
    simp only [List.foldl_cons, List.map_cons, List.sum_cons, ih]
    omega

theorem shopify_quantity_derivation (product : ShopifyProduct)
    (org dom cur now : String) :
    let total : Int := (product.variants.map fun v => v.inventoryQuantity.getD 0).sum
    (0 < total → (normalizeShopifyProduct product org dom cur now).quantity = .num total)
    ∧ (total ≤ 0 → (normalizeShopifyProduct product org dom cur now).quantity = .undef) := by
  intro total
  have htot : product.variants.foldl (fun sum v => sum + v.inventoryQuantity.getD 0) 0 = total := by
    rw [variants_foldl_sum]
    omega
  constructor
  · intro h
    simp only [normalizeShopifyProduct, htot]
    rw [if_pos h]
  · intro h
    simp only [normalizeShopifyProduct, htot]
    rw [if_neg (by omega)]

/-- Witness for C8: two variants with quantities `2` and missing sum to a
positive `2`, which becomes the canonical quantity. -/
theorem shopify_quantity_derivation_witness :
    (0 : Int) < 2
  ∧ (normalizeShopifyProduct
      { zeroQtyProduct with variants :=
        [{ zeroQtyVariant with inventoryQuantity := some 2 },
         { zeroQtyVariant with id := "v2", inventoryQuantity := none }] }
      "acme" "acme.myshopify.com" "USD" "t0").quantity = .num 2 := by
  constructor
  · decide
  · exact (shopify_quantity_derivation _ "acme" "acme.myshopify.com" "USD" "t0").1 (by decide)

/-!
## C10 — duplicate-group key truncation
-/

theorem splitColon_ne_nil (cs : List Char) : splitColon cs ≠ [] := by
  cases cs with
  | nil => simp [splitColon]
  | cons c rest =>
    by_cases h : c = ':' <;> simp [splitColon, h]
    cases hs : splitColon rest with
    | nil => simp
    | cons r rs => simp

theorem splitColon_head (cs : List Char) :
    (splitColon cs).head? = some (cs.takeWhile (· ≠ ':')) := by
  induction cs with
  | nil => simp [splitColon]
  | cons c rest ih =>
    by_cases h : c = ':'
    · subst h
      simp [splitColon, List.takeWhile_cons]
    · simp only [splitColon, if_neg h]
      cases hs : splitColon rest with
      | nil => exact absurd hs (splitColon_ne_nil rest)
      | cons r rs =>
        rw [hs] at ih
        simp only [List.head?_cons, Option.some.injEq] at ih
        simp [List.takeWhile_cons, h, ih]

theorem splitColon_append_colon (a b : List Char) (ha : ':' ∉ a) :
    splitColon (a ++ ':' :: b) = a :: splitColon b := by
  induction a with
  | nil => simp [splitColon]
  | cons c t ih =>
    simp only [List.mem_cons, not_or] at ha
    have hc : ¬c = ':' := fun h => ha.1 h.symm
    have hrec := ih ha.2
    simp only [List.cons_append, splitColon, if_neg hc, List.append_eq]
    rw [hrec]

/-- **C10.** The Duplicate Reconciler builds each group key as
`org_slug ++ ":" ++ merchant_product_id` and recovers the pair by splitting
on `:` and keeping the first two pieces; for a stored id that itself
contains `:` — as every Shopify `gid://…` id does — the reported group
carries only the id's prefix before its first `:`, a string different from
the stored id, and the subsequent group fetch filter built from that
truncated id does not match the record the key came from. -/
theorem duplicate_group_key_truncation (org mpid : String)
    (horg : ':' ∉ org.data) (hmpid : ':' ∈ mpid.data) (r : StoredProduct)
    (hr : r.merchant_product_id = .str mpid) :
    recoverGroupPair (buildGroupKey org (.str mpid))
      = (org, String.mk (mpid.data.takeWhile (· ≠ ':')))
  ∧ String.mk (mpid.data.takeWhile (· ≠ ':')) ≠ mpid
  ∧ groupFilter org (String.mk (mpid.data.takeWhile (· ≠ ':'))) r = false := by
  have hdata : (buildGroupKey org (.str mpid)).data = org.data ++ ':' :: mpid.data := by
    simp [buildGroupKey, jsToString]
  have htrunc : String.mk (mpid.data.takeWhile (· ≠ ':')) ≠ mpid := by
    intro h
    have : mpid.data.takeWhile (· ≠ ':') = mpid.data := congrArg String.data h
    have hnotin : ':' ∉ mpid.data.takeWhile (· ≠ ':') := by
      intro hmem
      have := List.mem_takeWhile_imp hmem
      simp at this
    rw [this] at hnotin
    exact hnotin hmpid
  refine ⟨?_, htrunc, ?_⟩
  · unfold recoverGroupPair splitOnColon
    rw [hdata, splitColon_append_colon _ _ horg]
    cases hs : splitColon mpid.data with
    | nil => exact absurd hs (splitColon_ne_nil mpid.data)
    | cons r rs =>
      have := splitColon_head mpid.data
      rw [hs] at this
      simp only [List.head?_cons, Option.some.injEq] at this
      subst this
      have horgmk : String.mk org.data = org := by cases org; rfl
      simp [horgmk]
  · have hne : jsEqb (JsVal.str mpid)
        (JsVal.str (String.mk (mpid.data.takeWhile (· ≠ ':')))) = false := by
      rw [jsEqb_str_str, beq_eq_false_iff_ne]
      exact fun h => htrunc h.symm
    unfold groupFilter
    rw [hr, hne]
    simp

/-- Witness for C10 at a real Shopify `gid://` id: the group is reported
for the id prefix `"gid"`, and fetching with it misses the stored row. -/
theorem duplicate_group_key_truncation_witness :
    recoverGroupPair (buildGroupKey "acme" (.str "gid://shopify/Product/123"))
      = ("acme", "gid")
  ∧ ("gid" : String) ≠ "gid://shopify/Product/123"
  ∧ groupFilter "acme" "gid"
      { id := 7, org_slug := "acme",
        merchant_product_id := .str "gid://shopify/Product/123",
        source := .str "shopify" } = false := by
  have h := duplicate_group_key_truncation "acme" "gid://shopify/Product/123"
    (by decide) (by decide)
    { id := 7, org_slug := "acme",
      merchant_product_id := .str "gid://shopify/Product/123",
      source := .str "shopify" } rfl
  exact h

/-!
## C6 — transform-error behaviour
-/

/-- A concrete `RegExp`-builtin behaviour: the pattern `"("` is malformed
in ECMAScript (unterminated group), so its compilation throws; every other
pattern compiles to a regex that happens to match nothing (irrelevant to
the facts below). -/
def parenFailEngine : RegexEngine :=
  ⟨fun pat _ => if pat = "(" then none else some fun _ => none⟩

/-- **C6 counterexample.**  The claim says a regex transform with a
malformed `args.pattern` degrades to a passthrough; `applyTransform` has no
`try`/`catch`, so the `SyntaxError` thrown by `new RegExp` propagates: the
transform errors instead of returning the value, and the row mapping that
invoked it aborts with that error rather than producing a product. -/
theorem transform_error_counterexample :
    applyTransform parenFailEngine (.str "hello")
        { op := "regex", args := some { pattern := some "(" } }
      = .error "SyntaxError: invalid regular expression"
  ∧ mapCsvRowToProduct parenFailEngine [("Name", .str "x")] "acme" "t0"
        [{ sourceField := "Name", internalField := "title",
           transform := some { op := "regex", args := some { pattern := some "(" } } }]
      = .error "SyntaxError: invalid regular expression" :=
  ⟨rfl, rfl⟩

/-- **C6 (amended).**  A regex transform whose pattern fails to compile
raises an error that propagates out of the transform (aborting the row
mapping); the passthrough degradations that do exist are: a pattern that
compiles but does not match leaves the value unchanged, an empty or
missing `args.pattern` (or missing `args` entirely) leaves the value
unchanged — `transform.args?.pattern` is falsy, so the regex branch is
skipped — and an unknown `op` is a no-op. -/
theorem transform_error_behaviour (eng : RegexEngine) (v : JsVal)
    (t : TransformSpec) (hv : presentValue v = true) (hop : t.op = "regex") :
    (∀ args pat, t.args = some args → args.pattern = some pat → pat ≠ "" →
      eng.compile pat (args.flags.getD "") = none →
      applyTransform eng v t = .error "SyntaxError: invalid regular expression")
  ∧ (∀ args pat run, t.args = some args → args.pattern = some pat → pat ≠ "" →
      eng.compile pat (args.flags.getD "") = some run →
      run (jsToString v) = none → applyTransform eng v t = .ok v)
  ∧ (∀ args, t.args = some args → (args.pattern = none ∨ args.pattern = some "") →
      applyTransform eng v t = .ok v)
  ∧ (t.args = none → applyTransform eng v t = .ok v)
  ∧ (∀ op', op' ∉ ["trim", "lower", "upper", "regex", "split", "join", "to_number"] →
      applyTransform eng v { t with op := op' } = .ok v) := by
  have hcases : (v = .null ∨ v = .undef) → False := by
    intro h
    cases h <;> subst_vars <;> simp [presentValue] at hv
  refine ⟨?_, ?_, ?_, ?_, ?_⟩
  · intro args pat hargs hpat hpne hc
    cases v <;> first
      | (simp [applyTransform, hop, hargs, hpat, hpne, hc]; done)
      | exact absurd (by simp) hcases
  · intro args pat run hargs hpat hpne hc hrun
    cases v <;> first
      | (simp [applyTransform, hop, hargs, hpat, hpne, hc, hrun]; done)
      | exact absurd (by simp) hcases
  · intro args hargs hp
    rcases hp with hp | hp <;>
      (cases v <;> first
        | (simp [applyTransform, hop, hargs, hp]; done)
        | exact absurd (by simp) hcases)
  · intro hnone
    cases v <;> first
      | (simp [applyTransform, hop, hnone]; done)
      | exact absurd (by simp) hcases
  · intro op' hop'
    simp only [List.mem_cons, List.not_mem_nil, or_false, not_or] at hop'
    obtain ⟨h1, h2, h3, h4, h5, h6, h7⟩ := hop'
    cases v <;> first
      | (simp [applyTransform, h1, h2, h3, h4, h5, h6, h7]; done)
      | exact absurd (by simp) hcases

/-- Witness for C6: under one engine, the malformed pattern `"("` errors;
the pattern `"z"` compiles and, not matching, passes the value through; an
empty pattern, a missing pattern and missing args pass the value through;
an unknown op is a no-op. -/
theorem transform_error_behaviour_witness :
    applyTransform parenFailEngine (.str "abc")
        { op := "regex", args := some { pattern := some "(" } }
      = .error "SyntaxError: invalid regular expression"
  ∧ applyTransform parenFailEngine (.str "abc")
        { op := "regex", args := some { pattern := some "z" } }
      = .ok (.str "abc")
  ∧ applyTransform parenFailEngine (.str "abc")
        { op := "regex", args := some { pattern := some "" } }
      = .ok (.str "abc")
  ∧ applyTransform parenFailEngine (.str "abc")
        { op := "regex", args := some { pattern := none } }
      = .ok (.str "abc")
  ∧ applyTransform parenFailEngine (.str "abc") { op := "regex", args := none }
      = .ok (.str "abc")
  ∧ applyTransform parenFailEngine (.str "abc") { op := "frobnicate" }
      = .ok (.str "abc") := by
  refine ⟨?_, ?_, ?_, ?_, ?_, ?_⟩
  · exact (transform_error_behaviour parenFailEngine (.str "abc")
      { op := "regex", args := some { pattern := some "(" } }
      rfl rfl).1 _ "(" rfl rfl (by decide) rfl
  · exact (transform_error_behaviour parenFailEngine (.str "abc")
      { op := "regex", args := some { pattern := some "z" } }
      rfl rfl).2.1 _ "z" _ rfl rfl (by decide) rfl rfl
  · exact (transform_error_behaviour parenFailEngine (.str "abc")
      { op := "regex", args := some { pattern := some "" } }
      rfl rfl).2.2.1 _ rfl (Or.inr rfl)
  · exact (transform_error_behaviour parenFailEngine (.str "abc")
      { op := "regex", args := some { pattern := none } }
      rfl rfl).2.2.1 _ rfl (Or.inl rfl)
  · exact (transform_error_behaviour parenFailEngine (.str "abc")
      { op := "regex", args := none } rfl rfl).2.2.2.1 rfl
  · exact (transform_error_behaviour parenFailEngine (.str "abc")
      { op := "regex" } rfl rfl).2.2.2.2 "frobnicate" (by decide)

/-!
## C7 — unmapped-field numeric coercion
-/

theorem numericCore_chars {cs : List Char} (h : numericCore cs = true) :
    ∀ c ∈ cs, c.isDigit ∨ c = ',' ∨ c = '.' ∨ c = '-' := by
  intro c hc
  unfold numericCore at h
  rw [Bool.and_eq_true] at h
  obtain ⟨hcore, hrest⟩ := h
  rw [← List.takeWhile_append_dropWhile (p := fun c => c.isDigit || c = ',') (l := cs)] at hc
  rcases List.mem_append.mp hc with hm | hm
  · have := List.mem_takeWhile_imp hm
    rcases Bool.or_eq_true .. |>.mp this with hd | he
    · exact Or.inl hd
    · exact Or.inr (Or.inl (by simpa using he))
  · revert hrest
    cases hdrop : cs.dropWhile fun c => c.isDigit || c = ',' with
    | nil => rw [hdrop] at hm; simp at hm
    | cons d frac =>
      rw [hdrop] at hm
      intro hrest
      by_cases hd : d = '.'
      · subst hd
        rcases List.mem_cons.mp hm with rfl | hm'
        · exact Or.inr (Or.inr (Or.inl rfl))
        · simp only [Bool.and_eq_true, List.all_eq_true] at hrest
          exact Or.inl (by simpa using hrest.2 c hm')
      · cases d <;> simp_all

theorem isNumericString_chars {s : String} (h : isNumericString s = true) :
    ∀ c ∈ s.data, c.isDigit ∨ c = ',' ∨ c = '.' ∨ c = '-' := by
  intro c hc
  unfold isNumericString at h
  rcases hdata : s.data with _ | ⟨c0, rest⟩
  · rw [hdata] at hc; simp at hc
  · rw [hdata] at h hc
    by_cases h0 : c0 = '-'
    · subst h0
      simp only at h
      rcases List.mem_cons.mp hc with rfl | hm
      · exact Or.inr (Or.inr (Or.inr rfl))
      · exact numericCore_chars h c hm
    · have hcore : numericCore (c0 :: rest) = true := by
        cases c0 <;> simp_all
      exact numericCore_chars hcore c hc

/-- **C7 counterexample.**  The claim says currency symbols are stripped
*before* the pure-numeric check, so `"$100"` is coerced to the number
`100`; in the code `isNumericString` runs on the raw value and rejects
`"$100"` (`$` matches no part of `/^-?[\d,]+(\.\d+)?$/`), so the mapper
keeps the original string. -/
theorem unmapped_coercion_counterexample :
    (mapCsvRowToProduct parenFailEngine [("Count", .str "$100")] "acme" "t0" []).toOption.map
        (fun p => alGet p.attributes "count") = some (some (.str "$100"))
  ∧ jsEqb (.str "$100") (.num 100) = false :=
  ⟨rfl, rfl⟩

/-- **C7 (amended).**  For a raw header not consumed by any mapping rule
whose string value is non-empty, the mapper stores the value under the
normalized attribute key coerced to a number exactly when the *raw* value
matches `/^-?[\d,]+(\.\d+)?$/` (commas are stripped only afterwards, for
parsing); currency symbols are *not* stripped before this check, so any
value containing `$` fails it and is kept as the original string. -/
theorem unmapped_numeric_coercion (pre : AList JsVal) (h s : String)
    (mapped : List String) (prod : NormalizedProduct)
    (hmap : h ∉ mapped) (hs : s ≠ "") :
    (isNumericString s = false →
      alGet (addUnmappedFields (pre ++ [(h, .str s)]) mapped prod).attributes
          (normalizeAttributeKey h) = some (.str s))
  ∧ (∀ q : ℚ, isNumericString s = true →
      jsParseFloat (stripCommasDollars s) = some q →
      alGet (addUnmappedFields (pre ++ [(h, .str s)]) mapped prod).attributes
          (normalizeAttributeKey h) = some (.num q))
  ∧ (∀ s' : String, '$' ∈ s'.data → isNumericString s' = false) := by
  have hstep :
      (addUnmappedFields (pre ++ [(h, .str s)]) mapped prod).attributes
        = alSet (addUnmappedFields pre mapped prod).attributes
            (normalizeAttributeKey h) (coerceUnmappedValue (.str s)) := by
    unfold addUnmappedFields
    rw [List.foldl_append]
    simp only [List.foldl_cons, List.foldl_nil]
    simp [hmap, presentValue, hs]
  refine ⟨?_, ?_, ?_⟩
  · intro hnum
    rw [hstep, alGet_alSet_self]
    simp [coerceUnmappedValue, hnum]
  · intro q hnum hq
    rw [hstep, alGet_alSet_self]
    simp [coerceUnmappedValue, hnum, hq]
  · intro s' hdollar
    by_contra hne
    rw [Bool.not_eq_false] at hne
    rcases isNumericString_chars hne '$' hdollar with hd | hd | hd | hd
    · simp [Char.isDigit] at hd
    · simp at hd
    · simp at hd
    · simp at hd

/-- Witness for C7: the value `"100"` (unmapped header `"Count"`) is
coerced to the number `100`; `"$100"` fails the numeric check. -/
theorem unmapped_numeric_coercion_witness :
    alGet (addUnmappedFields [("Count", .str "100")] []
        { org_slug := "acme", source := .str "csv" }).attributes "count"
      = some (.num 100)
  ∧ isNumericString "$100" = false := by
  have h := unmapped_numeric_coercion [] "Count" "100" []
    { org_slug := "acme", source := .str "csv" } (by simp) (by decide)
  constructor
  · have := h.2.1 100 rfl rfl
    simpa using this
  · exact h.2.2 "$100" (by decide)

/-!
## C4 — hash stability under permutation
-/

theorem alGet_some_of_mem_keys {α : Type} {a : AList α} {k : String}
    (h : k ∈ alKeys a) : ∃ v, alGet a k = some v := by
  induction a with
  | nil => simp [alKeys] at h
  | cons kv rest ih =>
    obtain ⟨k₀, v₀⟩ := kv
    by_cases hk : k₀ = k
    · exact ⟨v₀, by simp [alGet, hk]⟩
    · have : k ∈ alKeys rest := by
        simp only [alKeys, List.map_cons, List.mem_cons] at h
        rcases h with h | h
        · exact absurd h.symm hk
        · simpa [alKeys] using h
      obtain ⟨v, hv⟩ := ih this
      exact ⟨v, by simp [alGet, hk, hv]⟩

theorem alGet_mem {α : Type} {a : AList α} {k : String} {v : α}
    (h : alGet a k = some v) : (k, v) ∈ a := by
  induction a with
  | nil => simp [alGet] at h
  | cons kv rest ih =>
    obtain ⟨k₀, v₀⟩ := kv
    by_cases hk : k₀ = k
    · subst hk
      simp [alGet] at h
      subst h
      simp
    · simp [alGet, hk] at h
      exact List.mem_cons_of_mem _ (ih h)

theorem alGet_of_mem_nodup {α : Type} {a : AList α} {k : String} {v : α}
    (hnd : NodupKeys a) (h : (k, v) ∈ a) : alGet a k = some v := by
  induction a with
  | nil => simp at h
  | cons kv rest ih =>
    obtain ⟨k₀, v₀⟩ := kv
    rcases List.mem_cons.mp h with heq | hm
    · rw [Prod.ext_iff] at heq
      obtain ⟨h1, h2⟩ := heq
      simp at h1 h2
      subst h1
      subst h2
      simp [alGet]
    · have hk : k₀ ≠ k := by
        intro hk
        subst hk
        unfold NodupKeys alKeys at hnd
        simp only [List.map_cons, List.nodup_cons] at hnd
        exact hnd.1 (by simpa using List.mem_map_of_mem Prod.fst hm)
      have hnd' : NodupKeys rest := by
        unfold NodupKeys alKeys at hnd ⊢
        simpa using hnd.of_cons
      simp [alGet, hk, ih hnd' hm]

theorem NodupKeys.perm {a b : Attrs} (hnd : NodupKeys a) (hp : a.Perm b) :
    NodupKeys b := ((hp.map Prod.fst).nodup_iff).mp hnd

theorem alGet_perm {a b : Attrs} (hnd : NodupKeys a) (hp : a.Perm b)
    (k : String) : alGet a k = alGet b k := by
  cases hga : alGet a k with
  | none =>
    have hnm : k ∉ alKeys a := by
      intro hm
      obtain ⟨v, hv⟩ := alGet_some_of_mem_keys hm
      rw [hga] at hv
      cases hv
    have : k ∉ alKeys b := fun hm =>
      hnm ((hp.map Prod.fst).mem_iff.mpr hm)
    rw [alGet_eq_none_of_not_mem this]
  | some v =>
    exact (alGet_of_mem_nodup (hnd.perm hp) (hp.subset (alGet_mem hga))).symm

theorem serFieldsK_congr (pl : Option (List String)) (fs₁ fs₂ : Attrs)
    (hget : ∀ k, alGet fs₁ k = alGet fs₂ k) :
    ∀ ks, serFieldsK pl fs₁ ks = serFieldsK pl fs₂ ks := by
  intro ks
  induction ks with
  | nil => simp [serFieldsK]
  | cons k ks ih =>
    simp only [serFieldsK]
    rw [hget k]
    cases h2 : alGet fs₂ k with
    | none => simp [ih]
    | some v =>
      cases hsv : serVal pl v with
      | none => simp [hsv, ih]
      | some sstr => simp [hsv, ih]

/-- **C4.**  Hash stability: permuting the order of the `image_urls` list,
or permuting the insertion order of the `attributes` keys, leaves the
computed content hash unchanged — the image list is sorted before hashing
and the attribute keys are sorted before serialization, so both slots of
the hash input depend only on the underlying sets. -/
theorem hash_stability (p : NormalizedProduct) (l₁ l₂ : List String)
    (a₁ a₂ : Attrs) (himg : l₁.Perm l₂) (hattr : a₁.Perm a₂)
    (hnd : NodupKeys a₁) :
    createProductHash { p with image_urls := .arr (l₁.map .str), attributes := a₁ }
      = createProductHash { p with image_urls := .arr (l₂.map .str), attributes := a₂ } := by
  have himgs : sortJsArr (l₁.map JsVal.str) = sortJsArr (l₂.map JsVal.str) := by
    rw [sortJsArr_map_str, sortJsArr_map_str, sortStrings_perm himg]
  have hkeys : sortStrings (alKeys a₁) = sortStrings (alKeys a₂) :=
    sortStrings_perm (hattr.map Prod.fst)
  have hget : ∀ k, alGet a₁ k = alGet a₂ k := alGet_perm hnd hattr
  have hattrstr : hashAttrsStr a₁ = hashAttrsStr a₂ := by
    unfold hashAttrsStr
    rw [hkeys]
    simp only [serVal]
    rw [serFieldsK_congr _ a₁ a₂ hget]
  have himgstr : hashImagesStr (.arr (l₁.map JsVal.str))
      = hashImagesStr (.arr (l₂.map JsVal.str)) := by
    unfold hashImagesStr
    simp only [jsTruthy, if_true]
    rw [himgs]
  simp only [createProductHash]
  rw [himgstr, hattrstr]

/-- Witness for C4: swapping the two image URLs and the two attribute keys
leaves the hash unchanged. -/
theorem hash_stability_witness :
    createProductHash { pNoneW with
        image_urls := .arr (["b.jpg", "a.jpg"].map .str),
        attributes := [("a", JsVal.num 1), ("b", JsVal.num 2)] }
      = createProductHash { pNoneW with
        image_urls := .arr (["a.jpg", "b.jpg"].map .str),
        attributes := [("b", JsVal.num 2), ("a", JsVal.num 1)] } :=
  hash_stability pNoneW ["b.jpg", "a.jpg"] ["a.jpg", "b.jpg"]
    [("a", JsVal.num 1), ("b", JsVal.num 2)] [("b", JsVal.num 2), ("a", JsVal.num 1)]
    (List.Perm.swap "a.jpg" "b.jpg" [])
    (List.Perm.swap ("b", JsVal.num 2) ("a", JsVal.num 1) [])
    (show (alKeys [("a", JsVal.num 1), ("b", JsVal.num 2)]).Nodup by decide)

/-!
## C3 — update-path attribute merge
-/

theorem matchesRecord_noKey (r : StoredProduct) : matchesRecord .noKey r = false := rfl

theorem find?_update (e : StoredProduct) (f : StoredProduct → StoredProduct)
    (hf : ∀ r, (f r).id = r.id) :
    ∀ rows : List StoredProduct, e ∈ rows → (rows.map (·.id)).Nodup →
      ((rows.map fun r => if r.id == e.id then f r else r).find? fun r => r.id == e.id)
        = some (f e) := by
  intro rows
  induction rows with
  | nil => intro he; simp at he
  | cons r rest ih =>
    intro he hids
    simp only [List.map_cons, List.nodup_cons] at hids
    by_cases hr : r.id = e.id
    · have hre : r = e := by
        rcases List.mem_cons.mp he with rfl | hm
        · rfl
        · exact absurd (hr ▸ List.mem_map_of_mem (·.id) hm) hids.1
      subst hre
      simp [List.find?_cons, hf]
    · have hm : e ∈ rest := by
        rcases List.mem_cons.mp he with rfl | hm
        · exact absurd rfl hr
        · exact hm
      have hbeq : (r.id == e.id) = false := by simpa using hr
      simp only [List.map_cons, hbeq, if_false, List.find?_cons, Bool.false_eq_true]
      exact ih hm hids.2

/-- **C3.**  Update-path attribute merge precedence: on a matched-changed
update, the stored attributes of the updated record are the shallow merge
of the old stored attributes with the new product's attributes — for every
key other than the engine's reserved `_sync_hash`, a key present in the
new attributes takes the new value and a key present only in the old
stored attributes is preserved. -/
theorem update_merge_precedence (now : String) (p : NormalizedProduct)
    (st : Store) (e : StoredProduct) (hnd : NodupKeys p.attributes)
    (hids : (st.rows.map (·.id)).Nodup)
    (hmatch : (st.rows.filter fun r => matchesRecord (matchStrategy p) r).head? = some e)
    (hchanged : hashMatches e.attributes (createProductHash p) = false)
    (k : String) (hk : k ≠ "_sync_hash") :
    (upsertProduct now p st).1.action = .updated
  ∧ (upsertProduct now p st).1.productId = e.id
  ∧ (((upsertProduct now p st).2.rows.find? fun r => r.id == e.id).map
        fun r => alGet r.attributes k)
      = some ((alGet p.attributes k).or (alGet e.attributes k)) := by
  have hmem : e ∈ st.rows := by
    have := List.head?_eq_some_iff.mp hmatch
    obtain ⟨ys, hys⟩ := this
    exact List.mem_of_mem_filter (hys ▸ List.mem_cons_self e ys)
  have hmerged : alGet (alSpread e.attributes (attrsWithHash p)) k
      = (alGet p.attributes k).or (alGet e.attributes k) := by
    rw [alGet_alSpread _ (attrsWithHash_nodup hnd), alGet_attrsWithHash_ne p hk]
  have hfind := find?_update e
    (applyUpdate now p (alSpread e.attributes (attrsWithHash p)))
    (fun r => rfl) st.rows hmem hids
  cases hstrat : matchStrategy p with
  | noKey =>
    rw [hstrat] at hmatch
    simp only [matchesRecord_noKey] at hmatch
    simp at hmatch
  | shopifyKey o m =>
    rw [hstrat] at hmatch
    simp only [upsertProduct, hstrat, upsertKeyed, hmatch, hchanged,
      Bool.false_eq_true, if_false]
    refine ⟨trivial, trivial, ?_⟩
    rw [hfind]
    simp [applyUpdate, hmerged]
  | idPair o mp mv =>
    rw [hstrat] at hmatch
    simp only [upsertProduct, hstrat, upsertKeyed, hmatch, hchanged,
      Bool.false_eq_true, if_false]
    refine ⟨trivial, trivial, ?_⟩
    rw [hfind]
    simp [applyUpdate, hmerged]
  | skuKey o sk =>
    rw [hstrat] at hmatch
    simp only [upsertProduct, hstrat, upsertKeyed, hmatch, hchanged,
      Bool.false_eq_true, if_false]
    refine ⟨trivial, trivial, ?_⟩
    rw [hfind]
    simp [applyUpdate, hmerged]

/-- The stored record of the C3 witness: attributes `{a:1, b:2}`. -/
def mergeRowW : StoredProduct :=
  { id := 11, org_slug := "acme", sku := .str "SKU-7", source := .str "csv",
    attributes := [("a", JsVal.num 1), ("b", JsVal.num 2)] }

/-- The incoming product of the C3 witness: attributes `{b:3, c:4}`. -/
def mergeProdW : NormalizedProduct :=
  { org_slug := "acme", sku := .str "SKU-7", source := .str "csv",
    attributes := [("b", JsVal.num 3), ("c", JsVal.num 4)] }

/-- The one-row store of the C3 witness. -/
def mergeStoreW : Store := { rows := [mergeRowW], nextId := 12 }

/-- Witness for C3, realizing the spec's example: stored `{a:1,b:2}`
updated with `{b:3,c:4}` yields `{a:1,b:3,c:4}` on the stored record. -/
theorem update_merge_precedence_witness :
    (upsertProduct "t1" mergeProdW mergeStoreW).1.action = .updated
  ∧ (((upsertProduct "t1" mergeProdW mergeStoreW).2.rows.find? fun r => r.id == mergeRowW.id).map
        fun r => alGet r.attributes "a") = some (some (JsVal.num 1))
  ∧ (((upsertProduct "t1" mergeProdW mergeStoreW).2.rows.find? fun r => r.id == mergeRowW.id).map
        fun r => alGet r.attributes "b") = some (some (JsVal.num 3))
  ∧ (((upsertProduct "t1" mergeProdW mergeStoreW).2.rows.find? fun r => r.id == mergeRowW.id).map
        fun r => alGet r.attributes "c") = some (some (JsVal.num 4)) := by
  have hnd : NodupKeys mergeProdW.attributes := by
    show (alKeys [("b", JsVal.num 3), ("c", JsVal.num 4)]).Nodup
    decide
  have hids : (mergeStoreW.rows.map (·.id)).Nodup := by decide
  have hmatch : (mergeStoreW.rows.filter fun r =>
      matchesRecord (matchStrategy mergeProdW) r).head? = some mergeRowW := rfl
  have hchanged : hashMatches mergeRowW.attributes (createProductHash mergeProdW) = false := rfl
  refine ⟨(update_merge_precedence "t1" mergeProdW mergeStoreW mergeRowW hnd hids hmatch
      hchanged "a" (by decide)).1, ?_, ?_, ?_⟩
  · exact (update_merge_precedence "t1" mergeProdW mergeStoreW mergeRowW hnd hids hmatch
      hchanged "a" (by decide)).2.2
  · exact (update_merge_precedence "t1" mergeProdW mergeStoreW mergeRowW hnd hids hmatch
      hchanged "b" (by decide)).2.2
  · exact (update_merge_precedence "t1" mergeProdW mergeStoreW mergeRowW hnd hids hmatch
      hchanged "c" (by decide)).2.2

/-!
## C1 — upsert idempotence
-/

/-- The identity key resolved for a product is fully present with
string-typed identifier values — the situation of every product the row
mapper or the Shopify normalizer actually emits (ids and SKUs are
strings).  `noKey` has no identity key at all. -/
def KeyPresent : MatchStrategy → Prop
  | .shopifyKey _ mpid => ∃ s : String, mpid = .str s
  | .idPair _ mp mv => (∃ s : String, mp = .str s) ∧ (∃ s : String, mv = .str s)
  | .skuKey _ sk => ∃ s : String, sk = .str s
  | .noKey => False

theorem matchStrategy_shopify_inv {p : NormalizedProduct} {o : String} {m : JsVal}
    (h : matchStrategy p = .shopifyKey o m) :
    o = p.org_slug ∧ m = p.merchant_product_id ∧ p.source = .str "shopify" := by
  unfold matchStrategy at h
  by_cases h1 : jsEqb p.source (.str "shopify") = true
  · rw [if_pos h1] at h
    injection h with ho hm
    exact ⟨ho.symm, hm.symm, jsEqb_str_iff.mp h1⟩
  · rw [if_neg h1] at h
    split_ifs at h <;> simp at h

theorem matchStrategy_idPair_inv {p : NormalizedProduct} {o : String} {mp mv : JsVal}
    (h : matchStrategy p = .idPair o mp mv) :
    o = p.org_slug ∧ mp = p.merchant_product_id ∧ mv = p.merchant_variant_id := by
  unfold matchStrategy at h
  split_ifs at h <;> first
    | (injection h with h1 h2 h3; exact ⟨h1.symm, h2.symm, h3.symm⟩)
    | simp at h

theorem matchStrategy_sku_inv {p : NormalizedProduct} {o : String} {sk : JsVal}
    (h : matchStrategy p = .skuKey o sk) :
    o = p.org_slug ∧ sk = p.sku := by
  unfold matchStrategy at h
  split_ifs at h <;> first
    | (injection h with h1 h2; exact ⟨h1.symm, h2.symm⟩)
    | simp at h

theorem matchesRecord_mkInsertRow {p : NormalizedProduct} {strat : MatchStrategy}
    (hstrat : matchStrategy p = strat) (hkey : KeyPresent strat)
    (id : Nat) (now : String) (title : JsVal) (attrs : Attrs) :
    matchesRecord strat (mkInsertRow id now p title attrs) = true := by
  cases strat with
  | noKey => exact hkey.elim
  | shopifyKey o m =>
    obtain ⟨ho, hm, hsrc⟩ := matchStrategy_shopify_inv hstrat
    obtain ⟨s, hs⟩ := hkey
    subst ho
    subst hm
    simp [matchesRecord, mkInsertRow, hs, hsrc, jsEqb_str_str]
  | idPair o mp mv =>
    obtain ⟨ho, hm, hv⟩ := matchStrategy_idPair_inv hstrat
    obtain ⟨⟨s₁, hs₁⟩, ⟨s₂, hs₂⟩⟩ := hkey
    subst ho
    subst hm
    subst hv
    simp [matchesRecord, mkInsertRow, hs₁, hs₂, jsEqb_str_str]
  | skuKey o sk =>
    obtain ⟨ho, hsk⟩ := matchStrategy_sku_inv hstrat
    obtain ⟨s, hs⟩ := hkey
    subst ho
    subst hsk
    simp [matchesRecord, mkInsertRow, hs, jsEqb_str_str]

theorem matchesRecord_applyUpdate {p : NormalizedProduct} {strat : MatchStrategy}
    (hstrat : matchStrategy p = strat) (hkey : KeyPresent strat)
    (now : String) (merged : Attrs) (r : StoredProduct) :
    matchesRecord strat (applyUpdate now p merged r) = true := by
  cases strat with
  | noKey => exact hkey.elim
  | shopifyKey o m =>
    obtain ⟨ho, hm, hsrc⟩ := matchStrategy_shopify_inv hstrat
    obtain ⟨s, hs⟩ := hkey
    subst ho
    subst hm
    simp [matchesRecord, applyUpdate, patchField, hs, hsrc, jsEqb_str_str]
  | idPair o mp mv =>
    obtain ⟨ho, hm, hv⟩ := matchStrategy_idPair_inv hstrat
    obtain ⟨⟨s₁, hs₁⟩, ⟨s₂, hs₂⟩⟩ := hkey
    subst ho
    subst hm
    subst hv
    simp [matchesRecord, applyUpdate, patchField, hs₁, hs₂, jsEqb_str_str]
  | skuKey o sk =>
    obtain ⟨ho, hsk⟩ := matchStrategy_sku_inv hstrat
    obtain ⟨s, hs⟩ := hkey
    subst ho
    subst hsk
    simp [matchesRecord, applyUpdate, patchField, hs, jsEqb_str_str]

theorem upsertProduct_eq_keyed (now : String) (p : NormalizedProduct) (st : Store)
    (hne : matchStrategy p ≠ .noKey) :
    upsertProduct now p st = upsertKeyed now p st (matchStrategy p) := by
  cases h : matchStrategy p with
  | noKey => exact absurd h hne
  | shopifyKey o m => simp [upsertProduct, h]
  | idPair o mp mv => simp [upsertProduct, h]
  | skuKey o sk => simp [upsertProduct, h]

theorem head?_filter_update (q : StoredProduct → Bool)
    (f : StoredProduct → StoredProduct) (hfid : ∀ r, (f r).id = r.id)
    (e : StoredProduct) (hq : q (f e) = true) :
    ∀ rows : List StoredProduct, (rows.map (·.id)).Nodup →
      (rows.filter q).head? = some e →
      ((rows.map fun r => if r.id == e.id then f r else r).filter q).head? = some (f e) := by
  intro rows
  induction rows with
  | nil => intro _ h; simp at h
  | cons r rest ih =>
    intro hids hhead
    simp only [List.map_cons, List.nodup_cons] at hids
    cases hqr : q r with
    | true =>
      rw [List.filter_cons, if_pos (by simp [hqr])] at hhead
      simp only [List.head?_cons, Option.some.injEq] at hhead
      subst hhead
      simp only [List.map_cons, beq_self_eq_true, if_true]
      rw [List.filter_cons, if_pos (by simp [hq])]
      rfl
    | false =>
      rw [List.filter_cons, if_neg (by simp [hqr])] at hhead
      have hm : e ∈ rest := by
        have := List.head?_eq_some_iff.mp hhead
        obtain ⟨ys, hys⟩ := this
        exact List.mem_of_mem_filter (hys ▸ List.mem_cons_self e ys)
      have hr : (r.id == e.id) = false := by
        rw [beq_eq_false_iff_ne]
        intro hid
        exact hids.1 (hid ▸ List.mem_map_of_mem (·.id) hm)
      simp only [List.map_cons, hr, if_false, Bool.false_eq_true]
      rw [List.filter_cons, if_neg (by simp [hqr])]
      exact ih hids.2 hhead

/-- **C1.**  Upsert idempotence: running the Upsert Engine on a canonical
product that has an identity key, and then running it a second time on the
same product against the resulting store, classifies the product as
`unchanged` the second time and performs no write at all: the second
result store is exactly the first one.  (The `_sync_hash` written by the
first run is the hash the second run freshly recomputes.) -/
theorem upsert_idempotent (now₁ now₂ : String) (p : NormalizedProduct)
    (st : Store) (hkey : KeyPresent (matchStrategy p))
    (hnd : NodupKeys p.attributes)
    (hids : (st.rows.map (·.id)).Nodup) :
    (upsertProduct now₂ p (upsertProduct now₁ p st).2).1.action = .unchanged
  ∧ (upsertProduct now₂ p (upsertProduct now₁ p st).2).2 = (upsertProduct now₁ p st).2 := by
  have hne : matchStrategy p ≠ .noKey := by
    intro h
    rw [h] at hkey
    exact hkey
  have hhm : hashMatches (attrsWithHash p) (createProductHash p) = true := by
    unfold hashMatches
    rw [alGet_attrsWithHash_sync]
    simp
  rw [upsertProduct_eq_keyed now₁ p st hne]
  cases hf : (st.rows.filter fun r => matchesRecord (matchStrategy p) r).head? with
  | none =>
    have hfil : st.rows.filter (fun r => matchesRecord (matchStrategy p) r) = [] :=
      List.head?_eq_none_iff.mp hf
    simp only [upsertKeyed, hf]
    rw [upsertProduct_eq_keyed now₂ p _ hne]
    have hrow := matchesRecord_mkInsertRow rfl hkey st.nextId now₁
      (if jsTruthy p.title then p.title
       else match (attrsWithHash p).head? with
         | some (_, .str s) => JsVal.str s
         | _ => p.title)
      (attrsWithHash p)
    simp only [upsertKeyed, List.filter_append, hfil, List.nil_append,
      List.filter_cons, hrow, if_true, List.filter_nil, List.head?_cons]
    simp [mkInsertRow, hhm]
  | some e =>
    cases hcmp : hashMatches e.attributes (createProductHash p) with
    | true =>
      simp only [upsertKeyed, hf, hcmp, if_true]
      rw [upsertProduct_eq_keyed now₂ p st hne]
      simp only [upsertKeyed, hf, hcmp, if_true]
      exact ⟨trivial, trivial⟩
    | false =>
      have hupd := matchesRecord_applyUpdate rfl hkey now₁
        (alSpread e.attributes (attrsWithHash p)) e
      have hhead2 := head?_filter_update (fun r => matchesRecord (matchStrategy p) r)
        (applyUpdate now₁ p (alSpread e.attributes (attrsWithHash p)))
        (fun r => rfl) e hupd st.rows hids hf
      have hhm2 : hashMatches (alSpread e.attributes (attrsWithHash p))
          (createProductHash p) = true := by
        unfold hashMatches
        rw [alGet_alSpread _ (attrsWithHash_nodup hnd), alGet_attrsWithHash_sync]
        simp
      simp only [upsertKeyed, hf, hcmp, Bool.false_eq_true, if_false]
      rw [upsertProduct_eq_keyed now₂ p _ hne]
      simp only [upsertKeyed, hhead2]
      simp [applyUpdate, hhm2]

/-- The one-row store of the C1 witness (a product already inserted once
elsewhere is not needed: idempotence holds from any starting store). -/
def idemStoreW : Store := { rows := [], nextId := 0 }

/-- Witness for C1: inserting the SKU-keyed witness product into the empty
store and upserting it again yields `unchanged` and leaves the store
untouched. -/
theorem upsert_idempotent_witness :
    (upsertProduct "t2" pSkuW (upsertProduct "t1" pSkuW idemStoreW).2).1.action = .unchanged
  ∧ (upsertProduct "t2" pSkuW (upsertProduct "t1" pSkuW idemStoreW).2).2
      = (upsertProduct "t1" pSkuW idemStoreW).2 :=
  upsert_idempotent "t1" "t2" pSkuW idemStoreW ⟨"SKU9", rfl⟩
    (by show (alKeys ([] : Attrs)).Nodup; decide) (by decide)

/-!
## C9 — duplicate-group merge
-/

/-- The string elements of a stored row's `image_urls` array (empty for a
non-array value), used to state the image-union formula. -/
def rowImageStrings (r : StoredProduct) : List String :=
  match r.image_urls with
  | .arr xs => xs.filterMap fun v =>
      match v with
      | .str s => some s
      | _ => none
  | _ => []

/-- A stored row's `attributes.variants` array (empty when absent or not
an array). -/
def rowVariants (r : StoredProduct) : List JsVal :=
  match alGet r.attributes "variants" with
  | some (JsVal.arr vs) => vs
  | _ => []

/-- The `id` property of a variant object (`undefined` otherwise). -/
def varId (v : JsVal) : JsVal :=
  match v with
  | .obj fs => (alGet fs "id").getD .undef
  | _ => (.undef)

/-- Lookup in the id-keyed variant map (JS `Map.get`). -/
def vmGet (m : List (JsVal × JsVal)) (k : JsVal) : Option JsVal :=
  (m.find? fun kv => jsEqb kv.1 k).map (·.2)

theorem jsEqb_str_left_iff {t : String} {v : JsVal} :
    jsEqb (.str t) v = true ↔ v = .str t := by
  cases v <;> simp [jsEqb]
  exact comm

theorem vmGet_vmapSet (m : List (JsVal × JsVal)) (k v : JsVal) (i : String) :
    vmGet (vmapSet m k v) (.str i)
      = if jsEqb k (.str i) then some v else vmGet m (.str i) := by
  induction m with
  | nil =>
    by_cases h : jsEqb k (.str i) = true <;>
      simp [vmapSet, vmGet, List.find?_cons, h]
  | cons kv rest ih =>
    obtain ⟨k₀, v₀⟩ := kv
    by_cases h0 : jsEqb k₀ k = true
    · have hk0 : jsEqb k₀ (.str i) = jsEqb k (.str i) := by
        by_cases hki : jsEqb k (.str i) = true
        · have : k = .str i := jsEqb_str_iff.mp hki
          subst this
          have : k₀ = .str i := jsEqb_str_iff.mp h0
          subst this
          simp
        · have hne : jsEqb k₀ (.str i) = false := by
          -- if k₀ matched the string, then k would too
            by_contra hc
            rw [Bool.not_eq_false] at hc
            have hk₀ : k₀ = .str i := jsEqb_str_iff.mp hc
            subst hk₀
            have : k = .str i := jsEqb_str_left_iff.mp h0
            subst this
            simp [jsEqb] at hki
          rw [hne]
          rw [Bool.not_eq_true] at hki
          rw [hki]
      by_cases hki : jsEqb k (.str i) = true <;>
        simp [vmapSet, vmGet, h0, List.find?_cons, hki, hk0 ▸ hki] <;>
        simp [vmGet] at ih ⊢ <;> simp [ih]
    · have h0f : jsEqb k₀ k = false := by simpa using h0
      by_cases hk0i : jsEqb k₀ (.str i) = true
      · have hk₀ : k₀ = .str i := jsEqb_str_iff.mp hk0i
        subst hk₀
        have hki : jsEqb k (.str i) = false := by
          by_contra hc
          rw [Bool.not_eq_false] at hc
          have : k = .str i := jsEqb_str_iff.mp hc
          subst this
          simp [jsEqb_str_left_iff.mpr rfl] at h0f
        simp [vmapSet, vmGet, h0f, List.find?_cons, hk0i, hki]
      · have hk0if : jsEqb k₀ (.str i) = false := by simpa using hk0i
        have := ih
        by_cases hki : jsEqb k (.str i) = true <;>
          simp [vmapSet, vmGet, h0f, List.find?_cons, hk0if, hki] <;>
          simp [vmGet] at this <;> simpa [hki] using this

/-- One `Map.set` step of the variant union, keyed by the variant's `id`. -/
def variantStep (m : List (JsVal × JsVal)) (v : JsVal) : List (JsVal × JsVal) :=
  if jsTruthy (varId v) then vmapSet m (varId v) v else m

theorem collectVariants_inner (vs : List JsVal) :
    ∀ m, vs.foldl
        (fun m v =>
          let idv := match v with
            | JsVal.obj fs => (alGet fs "id").getD .undef
            | _ => .undef
          if jsTruthy idv then vmapSet m idv v else m)
        m
      = vs.foldl variantStep m := by
  induction vs with
  | nil => intro m; rfl
  | cons v t ih =>
    intro m
    simp only [List.foldl_cons]
    rw [ih]
    rfl

theorem collectVariants_eq_flat (products : List StoredProduct) :
    collectVariants products = (products.flatMap rowVariants).foldl variantStep [] := by
  suffices h : ∀ m, products.foldl
      (fun m p =>
        match alGet p.attributes "variants" with
        | some (JsVal.arr vs) =>
            vs.foldl
              (fun m v =>
                let idv := match v with
                  | JsVal.obj fs => (alGet fs "id").getD .undef
                  | _ => .undef
                if jsTruthy idv then vmapSet m idv v else m)
              m
        | _ => m)
      m = (products.flatMap rowVariants).foldl variantStep m by
    exact h []
  induction products with
  | nil => intro m; rfl
  | cons p ps ih =>
    intro m
    simp only [List.foldl_cons, List.flatMap_cons, List.foldl_append]
    rw [← ih]
    congr 1
    unfold rowVariants
    cases hv : alGet p.attributes "variants" with
    | none => rfl
    | some v =>
      cases v <;> simp [collectVariants_inner]

theorem vmGet_fold_assign (i : String) (hi : i ≠ "") :
    ∀ (l : List JsVal) (m : List (JsVal × JsVal)),
      vmGet (l.foldl variantStep m) (.str i)
        = ((l.filter fun v => jsEqb (varId v) (.str i)).getLast?).or (vmGet m (.str i)) := by
  intro l
  induction l using List.reverseRecOn with
  | nil => intro m; simp
  | append_singleton l v ih =>
    intro m
    rw [List.foldl_append]
    simp only [List.foldl_cons, List.foldl_nil]
    by_cases hv : jsTruthy (varId v) = true
    · rw [show ∀ M, variantStep M v = vmapSet M (varId v) v from
        fun M => by simp [variantStep, hv], vmGet_vmapSet]
      by_cases hmatch : jsEqb (varId v) (.str i) = true
      · rw [if_pos hmatch]
        have hfil : (l ++ [v]).filter (fun v => jsEqb (varId v) (.str i))
            = l.filter (fun v => jsEqb (varId v) (.str i)) ++ [v] := by
          rw [List.filter_append]
          simp [hmatch]
        rw [hfil, List.getLast?_concat]
        simp
      · rw [if_neg hmatch, ih]
        rw [List.filter_append]
        simp [hmatch]
    · rw [show ∀ M, variantStep M v = M from fun M => by simp [variantStep, hv], ih]
      have hmatch : jsEqb (varId v) (.str i) = false := by
        by_contra hc
        rw [Bool.not_eq_false] at hc
        have : varId v = .str i := jsEqb_str_iff.mp hc
        rw [this] at hv
        simp [jsTruthy, hi] at hv
      rw [List.filter_append]
      simp [hmatch]

/-- One `Set.add` step of the image union (truthy strings only, first
occurrence kept). -/
def imageStep (acc : List String) (s : String) : List String :=
  if s ≠ "" && !acc.contains s then acc ++ [s] else acc

theorem collectImages_inner (xs : List JsVal) :
    ∀ acc, xs.foldl
        (fun acc v =>
          match v with
          | JsVal.str s => if s ≠ "" && !acc.contains s then acc ++ [s] else acc
          | _ => acc)
        acc
      = (xs.filterMap fun v =>
          match v with
          | JsVal.str s => some s
          | _ => none).foldl imageStep acc := by
  induction xs with
  | nil => intro acc; rfl
  | cons v t ih =>
    intro acc
    cases v <;> exact ih _

theorem collectImages_eq_flat (products : List StoredProduct) :
    collectImages products = (products.flatMap rowImageStrings).foldl imageStep [] := by
  suffices h : ∀ acc, products.foldl
      (fun acc p =>
        match p.image_urls with
        | JsVal.arr xs =>
            xs.foldl
              (fun acc v =>
                match v with
                | JsVal.str s => if s ≠ "" && !acc.contains s then acc ++ [s] else acc
                | _ => acc)
              acc
        | _ => acc)
      acc = (products.flatMap rowImageStrings).foldl imageStep acc by
    exact h []
  induction products with
  | nil => intro acc; rfl
  | cons p ps ih =>
    intro acc
    simp only [List.foldl_cons, List.flatMap_cons, List.foldl_append]
    rw [← ih]
    congr 1
    unfold rowImageStrings
    cases hv : p.image_urls <;> first | rfl | exact collectImages_inner _ acc

theorem mem_imageStep (acc : List String) (s x : String) :
    x ∈ imageStep acc s ↔ x ∈ acc ∨ (x = s ∧ s ≠ "") := by
  unfold imageStep
  by_cases hc : (decide (s ≠ "") && !acc.contains s) = true
  · rcases Bool.and_eq_true .. |>.mp hc with ⟨h1, h2⟩
    have hs : s ≠ "" := by simpa using h1
    simp only [hc, if_true]
    rw [List.mem_append]
    simp only [List.mem_singleton]
    constructor
    · rintro (h | rfl)
      · exact Or.inl h
      · exact Or.inr ⟨rfl, hs⟩
    · rintro (h | ⟨rfl, _⟩)
      · exact Or.inl h
      · exact Or.inr rfl
  · simp only [Bool.not_eq_true] at hc
    simp only [hc, Bool.false_eq_true, if_false]
    constructor
    · exact Or.inl
    · rintro (h | ⟨hxs, hs⟩)
      · exact h
      · rcases Bool.and_eq_false_iff.mp hc with h1 | h1
        · have hse : s = "" := by simpa using h1
          exact absurd hse hs
        · rw [hxs]
          simpa using h1
  
theorem imageStep_fold_mem :
    ∀ (l : List String) (acc : List String) (x : String),
      x ∈ l.foldl imageStep acc ↔ x ∈ acc ∨ (x ∈ l ∧ x ≠ "") := by
  intro l
  induction l with
  | nil => intro acc x; simp
  | cons s t ih =>
    intro acc x
    simp only [List.foldl_cons]
    rw [ih, mem_imageStep]
    constructor
    · rintro ((h | ⟨rfl, hne⟩) | ⟨h, hne⟩)
      · exact Or.inl h
      · exact Or.inr ⟨List.mem_cons_self _ _, hne⟩
      · exact Or.inr ⟨List.mem_cons_of_mem _ h, hne⟩
    · rintro (h | ⟨hm, hne⟩)
      · exact Or.inl (Or.inl h)
      · rcases List.mem_cons.mp hm with rfl | h
        · exact Or.inl (Or.inr ⟨rfl, hne⟩)
        · exact Or.inr ⟨h, hne⟩

theorem nodup_imageStep (acc : List String) (s : String) (h : acc.Nodup) :
    (imageStep acc s).Nodup := by
  unfold imageStep
  by_cases hc : (decide (s ≠ "") && !acc.contains s) = true
  · rcases Bool.and_eq_true .. |>.mp hc with ⟨h1, h2⟩
    have hmem : s ∉ acc := by simpa using h2
    simp only [hc, if_true]
    exact List.Nodup.append h (List.nodup_singleton s) (by simpa using hmem)
  · simp only [Bool.not_eq_true] at hc
    simp only [hc, Bool.false_eq_true, if_false]
    exact h

theorem imageStep_fold_nodup :
    ∀ (l : List String) (acc : List String), acc.Nodup → (l.foldl imageStep acc).Nodup := by
  intro l
  induction l with
  | nil => intro acc h; exact h
  | cons s t ih =>
    intro acc h
    exact ih _ (nodup_imageStep acc s h)

theorem nodupKeys_alSpread {α : Type} {a : AList α} (ha : NodupKeys a) (b : AList α) :
    NodupKeys (alSpread a b) := by
  induction b generalizing a with
  | nil => exact ha
  | cons kv rest ih =>
    have hstep : alSpread a (kv :: rest) = alSpread (alSet a kv.1 kv.2) rest := rfl
    rw [hstep]
    exact ih (ha.alSet kv.1 kv.2)

theorem filterMap_head?_cons {α β : Type} (f : α → Option β) (p : α) (l : List α) :
    ((p :: l).filterMap f).head? = (f p).or ((l.filterMap f).head?) := by
  cases hf : f p <;> simp [List.filterMap_cons, hf]

theorem mergeAttrsFold_get (k : String) :
    ∀ (products : List StoredProduct) (init : Attrs), NodupKeys init →
      (∀ r ∈ products, NodupKeys r.attributes) →
      alGet (mergeAttrsFold products init) k
        = (alGet init k).or ((products.filterMap fun r => alGet r.attributes k).head?) := by
  intro products
  induction products with
  | nil => intro init _ _; simp [mergeAttrsFold]
  | cons p ps ih =>
    intro init hinit hnd
    have hstep : mergeAttrsFold (p :: ps) init
        = mergeAttrsFold ps (alSpread p.attributes init) := rfl
    rw [hstep, ih _ (nodupKeys_alSpread (hnd p (List.mem_cons_self p ps)) init)
      (fun r hr => hnd r (List.mem_cons_of_mem p hr))]
    rw [alGet_alSpread _ hinit, filterMap_head?_cons, Option.or_assoc]

theorem find?_map_filter_update
    (rows : List StoredProduct) (surv : StoredProduct) (g : StoredProduct → StoredProduct)
    (losers : List Nat)
    (hnd : (rows.map fun r => r.id).Nodup) (hmem : surv ∈ rows)
    (hgid : (g surv).id = surv.id) (hnl : ¬ surv.id ∈ losers) :
    ((rows.map fun r => if r.id == surv.id then g r else r).filter
        fun r => !losers.contains r.id).find? (fun r => r.id == surv.id)
      = some (g surv) := by
  induction rows with
  | nil => cases hmem
  | cons r t ih =>
    simp only [List.map_cons, List.nodup_cons] at hnd
    by_cases h : r.id = surv.id
    · have hrs : r = surv := by
        rcases List.mem_cons.mp hmem with h1 | h1
        · exact h1.symm
        · exact absurd (h ▸ List.mem_map_of_mem (fun r => r.id) h1) hnd.1
      subst hrs
      simp only [List.map_cons, beq_self_eq_true, if_true]
      rw [List.filter_cons, if_pos (by simp [hgid, hnl])]
      rw [List.find?_cons]
      simp [hgid]
    · have hne : (r.id == surv.id) = false := by simpa using h
      have hmem' : surv ∈ t := by
        rcases List.mem_cons.mp hmem with h1 | h1
        · exact absurd (congrArg (fun r => r.id) h1.symm) h
        · exact h1
      simp only [List.map_cons, hne, Bool.false_eq_true, if_false]
      rw [List.filter_cons]
      by_cases hl : r.id ∈ losers
      · rw [if_neg (by simp [hl])]
        exact ih hnd.2 hmem'
      · rw [if_pos (by simp [hl])]
        rw [List.find?_cons]
        simp only [hne]
        exact ih hnd.2 hmem'

/-- The survivor's copy of variant `v1` (price 10). -/
def vNew : JsVal := .obj [("id", .str "v1"), ("price", .num 10)]

/-- The older member's copy of variant `v1` (price 20). -/
def vOld : JsVal := .obj [("id", .str "v1"), ("price", .num 20)]

/-- The newer duplicate (the survivor: largest `updated_at`). -/
def rowNew : StoredProduct :=
  { id := 1, org_slug := "g", merchant_product_id := .str "P",
    source := .str "shopify", updated_at := "2024-02-01",
    image_urls := .arr [.str "a.jpg"],
    attributes := [("variants", .arr [vNew])] }

/-- The older duplicate, carrying its own copy of variant `v1`. -/
def rowOld : StoredProduct :=
  { id := 2, org_slug := "g", merchant_product_id := .str "P",
    source := .str "shopify", updated_at := "2024-01-01",
    image_urls := .arr [.str "b.jpg"],
    attributes := [("variants", .arr [vOld])] }

/-- A store holding exactly one violating duplicate group. -/
def dupStore : Store := { rows := [rowNew, rowOld], nextId := 3 }

/-- **C9, counterexample.**  In a two-member group whose members both carry
variant id `v1`, the merged `attributes.variants` holds the *older*
member's copy `vOld`, not the survivor's own `vNew`: the group is iterated
newest-first and `Map.set` lets the last write win, so the survivor's
variant is overwritten.  This refutes the claim that "the survivor's own
variant takes precedence for any variant id present in more than one
member". -/
theorem dupGroup_eval : getProductsInGroup dupStore "g" "P" = [rowNew, rowOld] := by
  have hle : rowOld.updated_at ≤ rowNew.updated_at :=
    show ("2024-01-01" : String) ≤ "2024-02-01" by simp; decide
  unfold getProductsInGroup
  have hfil : dupStore.rows.filter (groupFilter "g" "P") = [rowNew, rowOld] := rfl
  rw [hfil]
  show List.orderedInsert _ rowNew (List.orderedInsert _ rowOld []) = _
  simp only [List.orderedInsert]
  rw [if_pos hle]

theorem dedupe_variant_precedence_counterexample :
    (getProductsInGroup dupStore "g" "P").head? = some rowNew
    ∧ ((mergeProducts (getProductsInGroup dupStore "g" "P")).map
        fun m => alGet m.attributes "variants") = some (some (.arr [vOld]))
    ∧ jsEqb vOld vNew = false := by
  rw [dupGroup_eval]
  exact ⟨rfl, rfl, rfl⟩

/-- **C9.**  Duplicate-group merge, amended.  For a violating group fetched
most-recently-updated first (with distinct row ids and well-formed
attribute objects), the merged result written onto the survivor has:
`image_urls` equal to the deduplicated, sorted union of all members' truthy
image strings; `attributes.variants` equal to the union of all members'
variants keyed by variant id, where — contrary to the claim — for an id
present in more than one member the *last* variant in newest-first
iteration order (the oldest member's copy, not the survivor's) wins;
survivor-wins attribute merging on every other key, carrying over
non-survivor-only keys; and after the update every non-survivor member of
the group is deleted while unrelated rows survive. -/
theorem dedupe_group_merge (now org mpid : String) (st : Store)
    (survivor merged : StoredProduct)
    (hsuv : (getProductsInGroup st org mpid).head? = some survivor)
    (hlen : 2 ≤ (getProductsInGroup st org mpid).length)
    (hm : mergeProducts (getProductsInGroup st org mpid) = some merged)
    (hids : (st.rows.map fun r => r.id).Nodup)
    (hnd : ∀ r ∈ st.rows, NodupKeys r.attributes) :
    merged.image_urls
      = .arr ((sortStrings ((((getProductsInGroup st org mpid).flatMap
          rowImageStrings).filter fun s => s ≠ "").dedup)).map .str)
    ∧ alGet merged.attributes "variants"
      = some (.arr ((collectVariants (getProductsInGroup st org mpid)).map fun kv => kv.2))
    ∧ (∀ i : String, i ≠ "" →
        vmGet (collectVariants (getProductsInGroup st org mpid)) (.str i)
          = (((getProductsInGroup st org mpid).flatMap rowVariants).filter
              fun v => jsEqb (varId v) (.str i)).getLast?)
    ∧ (∀ k, k ≠ "variants" →
        alGet merged.attributes k
          = ((getProductsInGroup st org mpid).filterMap
              fun r => alGet r.attributes k).head?)
    ∧ (∀ r ∈ (dedupeGroup now st org mpid).rows,
        ¬ r.id ∈ ((getProductsInGroup st org mpid).drop 1).map fun r => r.id)
    ∧ ((dedupeGroup now st org mpid).rows.find? (fun r => r.id == survivor.id)
        = some (applyMergeUpdate now merged survivor))
    ∧ (∀ r ∈ st.rows, r.id ≠ survivor.id →
        (¬ r.id ∈ ((getProductsInGroup st org mpid).drop 1).map fun r => r.id) →
        r ∈ (dedupeGroup now st org mpid).rows) := by
  obtain ⟨rest, hps⟩ : ∃ rest, getProductsInGroup st org mpid = survivor :: rest := by
    cases hq : getProductsInGroup st org mpid with
    | nil => rw [hq] at hsuv; cases hsuv
    | cons a t =>
      rw [hq] at hsuv
      simp only [List.head?_cons, Option.some.injEq] at hsuv
      exact ⟨t, by rw [← hsuv]⟩
  rw [hps] at hm hlen
  rw [hps]
  have hm2 : ({ survivor with image_urls := JsVal.arr ((sortStrings (collectImages (survivor :: rest))).map JsVal.str), attributes := alSet (mergeAttrsFold (survivor :: rest) survivor.attributes) "variants" (JsVal.arr ((collectVariants (survivor :: rest)).map fun kv => kv.2)) } : StoredProduct) = merged := Option.some.inj hm
  subst hm2
  have hperm0 : (survivor :: rest).Perm (st.rows.filter (groupFilter org mpid)) := by
    rw [← hps]; exact List.perm_insertionSort _ _
  have hmem_ps : ∀ r ∈ survivor :: rest, r ∈ st.rows := by
    intro r hr
    exact (List.mem_filter.mp (hperm0.subset hr)).1
  have hsurv_mem : survivor ∈ st.rows := hmem_ps survivor (List.mem_cons_self _ _)
  have hids_ps : ((survivor :: rest).map fun r => r.id).Nodup := by
    have h1 : ((st.rows.filter (groupFilter org mpid)).map fun r => r.id).Nodup :=
      List.Nodup.sublist ((List.filter_sublist _).map _) hids
    exact (hperm0.map fun r => r.id).nodup_iff.mpr h1
  have hnl : ¬ survivor.id ∈ rest.map fun r => r.id := by
    have h := hids_ps
    rw [List.map_cons] at h
    exact (List.nodup_cons.mp h).1
  have hlen1 : ¬ ((survivor :: rest).length ≤ 1) := by
    simp only [List.length_cons] at hlen ⊢
    omega
  have hout : dedupeGroup now st org mpid = { st with rows := (st.rows.map fun r => if r.id == survivor.id then applyMergeUpdate now ({ survivor with image_urls := JsVal.arr ((sortStrings (collectImages (survivor :: rest))).map JsVal.str), attributes := alSet (mergeAttrsFold (survivor :: rest) survivor.attributes) "variants" (JsVal.arr ((collectVariants (survivor :: rest)).map fun kv => kv.2)) } : StoredProduct) r else r).filter fun r => !(rest.map fun r => r.id).contains r.id } := by
    unfold dedupeGroup
    rw [hps, if_neg hlen1, hm]
    rfl
  refine ⟨?_, ?_, ?_, ?_, ?_, ?_, ?_⟩
  · show JsVal.arr ((sortStrings (collectImages (survivor :: rest))).map JsVal.str) = _
    have hn1 : (collectImages (survivor :: rest)).Nodup := by
      rw [collectImages_eq_flat]
      exact imageStep_fold_nodup _ [] List.nodup_nil
    have hn2 : ((((survivor :: rest).flatMap rowImageStrings).filter
        fun s => s ≠ "").dedup).Nodup := List.nodup_dedup _
    have hpm : (collectImages (survivor :: rest)).Perm
        ((((survivor :: rest).flatMap rowImageStrings).filter fun s => s ≠ "").dedup) := by
      rw [List.perm_ext_iff_of_nodup hn1 hn2]
      intro x
      rw [collectImages_eq_flat, imageStep_fold_mem]
      simp [List.mem_dedup, List.mem_filter]
      tauto
    rw [sortStrings_perm hpm]
  · show alGet (alSet (mergeAttrsFold (survivor :: rest) survivor.attributes) "variants"
        (JsVal.arr ((collectVariants (survivor :: rest)).map fun kv => kv.2))) "variants" = _
    rw [alGet_alSet_self]
  · intro i hi
    rw [collectVariants_eq_flat, vmGet_fold_assign i hi]
    simp [vmGet]
  · intro k hk
    show alGet (alSet (mergeAttrsFold (survivor :: rest) survivor.attributes) "variants"
        (JsVal.arr ((collectVariants (survivor :: rest)).map fun kv => kv.2))) k = _
    rw [alGet_alSet_ne _ (fun h => hk h.symm),
      mergeAttrsFold_get k _ _ (hnd survivor hsurv_mem) (fun r hr => hnd r (hmem_ps r hr)),
      filterMap_head?_cons]
    cases alGet survivor.attributes k <;> simp
  · intro r hr
    rw [hout] at hr
    have h2 := (List.mem_filter.mp hr).2
    simp only [List.drop_one, List.tail_cons]
    simpa using h2
  · rw [hout]
    exact find?_map_filter_update st.rows survivor _ _ hids hsurv_mem rfl hnl
  · intro r hr hneq hnin
    rw [hout]
    simp only [List.drop_one, List.tail_cons] at hnin
    apply List.mem_filter.mpr
    constructor
    · have hmap := List.mem_map_of_mem
        (fun r => if r.id == survivor.id then applyMergeUpdate now ({ survivor with image_urls := JsVal.arr ((sortStrings (collectImages (survivor :: rest))).map JsVal.str), attributes := alSet (mergeAttrsFold (survivor :: rest) survivor.attributes) "variants" (JsVal.arr ((collectVariants (survivor :: rest)).map fun kv => kv.2)) } : StoredProduct) r else r) hr
      simpa [hneq] using hmap
    · simpa using hnin

/-- The merged survivor for the two-row duplicate group of `dupStore`. -/
def mergedW : StoredProduct :=
  { rowNew with
      image_urls := JsVal.arr ((sortStrings (collectImages [rowNew, rowOld])).map JsVal.str),
      attributes := [("variants", JsVal.arr [vOld])] }

theorem dedupe_group_merge_witness :
    ((dedupeGroup "t9" dupStore "g" "P").rows.find? fun r => r.id == rowNew.id)
      = some (applyMergeUpdate "t9" mergedW rowNew) :=
  (dedupe_group_merge "t9" "g" "P" dupStore rowNew mergedW
    (by rw [dupGroup_eval]; rfl) (by rw [dupGroup_eval]; decide)
    (by rw [dupGroup_eval]; rfl) (by decide)
    (by show ∀ r ∈ dupStore.rows, (alKeys r.attributes).Nodup; decide)).2.2.2.2.2.1

end Beam
